import Mathlib

/-!
Shallow embedding of the SARAL retrieval-augmented content generator
(`src/saral_chatbot`) and proofs about it.

Python strings are modelled as `List Char` (`Str`), Python floats as exact
rationals `ℚ`, Python lists as Lean lists, and Python dataclasses as Lean
structures.  External collaborators (document loader, embedding backend,
language-model backend, `json.loads`) are passed in as explicit parameters,
as the spec treats them as interfaces.  Every definition mirrors one Python
function of the repository; the source file and symbol are named in its
doc comment.
-/

set_option maxHeartbeats 1600000
set_option maxRecDepth 4000

/-- Python strings, modelled as lists of characters. -/
abbrev Str := List Char

/-- Coerce a Lean string literal to the `Str` model. -/
def str (s : String) : Str := s.data

/-- ASCII whitespace, modelling Python's `str.split()` / `\s` / `strip()`
whitespace classes (the repository only feeds ASCII text through them). -/
def isSpaceChar (c : Char) : Bool :=
  c = ' ' || c = '\t' || c = '\n' || c = '\r' || c = '\x0b' || c = '\x0c'

/-- Python `str.lower()` (ASCII range, via `Char.toLower`). -/
def pyLower (s : Str) : Str := s.map Char.toLower

/-- Python `str.strip()`: remove leading and trailing whitespace. -/
def trimStr (s : Str) : Str :=
  ((s.dropWhile isSpaceChar).reverse.dropWhile isSpaceChar).reverse

/-- Python's substring test `pat in s`. -/
def containsSub (pat : Str) : Str → Bool
  | [] => pat.isPrefixOf []
  | c :: rest => pat.isPrefixOf (c :: rest) || containsSub pat rest

/-- Worker for `replaceAll`: the `Nat` argument counts characters of a
matched occurrence that remain to be skipped, so that replacement is
leftmost and non-overlapping, exactly like Python's `str.replace`. -/
def raGo (pat repl : Str) : Str → Nat → Str
  | [], _ => []
  | _ :: rest, k + 1 => raGo pat repl rest k
  | c :: rest, 0 =>
    if pat.isPrefixOf (c :: rest) && decide (0 < pat.length) then
      repl ++ raGo pat repl rest (pat.length - 1)
    else
      c :: raGo pat repl rest 0

/-- Python `s.replace(pat, repl)` for a non-empty pattern (all patterns in
this repository are non-empty literals; the empty pattern is a no-op here). -/
def replaceAll (s pat repl : Str) : Str := raGo pat repl s 0

/-- Worker for `replaceAllCI`, as `raGo` but the match is case-insensitive
(the pattern is given in lowercase and compared against the lowered text),
modelling `re.sub(pat, repl, s, flags=re.IGNORECASE)` on a literal pattern. -/
def raciGo (pat repl : Str) : Str → Nat → Str
  | [], _ => []
  | _ :: rest, k + 1 => raciGo pat repl rest k
  | c :: rest, 0 =>
    if pat.isPrefixOf (pyLower (c :: rest)) && decide (0 < pat.length) then
      repl ++ raciGo pat repl rest (pat.length - 1)
    else
      c :: raciGo pat repl rest 0

/-- Case-insensitive leftmost non-overlapping replace-all. -/
def replaceAllCI (s pat repl : Str) : Str := raciGo pat repl s 0

/-- The closed blocklist of `generation/safety.py` (`BLOCKED_TERMS`); a
Python `set`, but term order does not affect the result because the terms
do not overlap each other or the redaction marker. -/
def BLOCKED_TERMS : List Str := [str "hate", str "kill", str "slur"]

/-- The closed jargon map of `generation/safety.py` (`JARGON_MAP`), in
insertion order. -/
def JARGON_MAP : List (Str × Str) :=
  [(str "non-stationary diffusion", str "changing diffusion patterns"),
   (str "anthropogenic", str "human-caused")]

/-- Embeds `enforce_safety` of `generation/safety.py` lines 19-26.  Note the
source computes `lowered = text.lower()` once, tests each blocked term
against that original lowered text, but replaces case-sensitively in the
running text; the jargon substitution is case-insensitive (`re.IGNORECASE`)
and inserts the map's spelling of the term. -/
def enforce_safety (text : Str) : Str :=
  let lowered := pyLower text
  let afterBlock :=
    BLOCKED_TERMS.foldl
      (fun t term => if containsSub term lowered then replaceAll t term (str "[removed]") else t)
      text
  JARGON_MAP.foldl
    (fun t js =>
      replaceAllCI t js.1 (js.2 ++ str " (formerly \"" ++ js.1 ++ str "\")"))
    afterBlock

example : enforce_safety (str "they kill time.") = str "they [removed] time." := by decide

example : enforce_safety (str "Kill") = str "Kill" := by decide

example : enforce_safety (str "Anthropogenic change.") =
    str "human-caused (formerly \"anthropogenic\") change." := by decide

/-- Sentence-ending punctuation of the splitter regex `(?<=[.!?])\s+`. -/
def isSentencePunct (c : Char) : Bool := c = '.' || c = '!' || c = '?'

/-- Does the string start with a whitespace character. -/
def headIsSpace : Str → Bool
  | [] => false
  | d :: _ => isSpaceChar d

/-- Worker for `simple_sentence_split`: scans the (already stripped) text.
`skip = true` means we are inside the whitespace run that follows a
sentence boundary (the `\s+` of the regex) and are discarding it; `cur` is
the current sentence accumulated in reverse.  A boundary is a punctuation
character followed by whitespace, matching `re.split(r"(?<=[.!?])\s+", t)`. -/
def ssAux : Bool → Str → Str → List Str
  | _, [], cur => [cur.reverse]
  | skip, c :: rest, cur =>
    if skip && isSpaceChar c then ssAux true rest cur
    else if isSentencePunct c && headIsSpace rest then
      (c :: cur).reverse :: ssAux true rest []
    else
      ssAux false rest (c :: cur)

/-- Embeds `simple_sentence_split` of `ingestion/chunker.py` lines 19-22:
split the stripped text at the regex boundaries, strip each piece and drop
empty pieces. -/
def simple_sentence_split (text : Str) : List Str :=
  let t := trimStr text
  if t = [] then []
  else ((ssAux false t []).map trimStr).filter (fun s => s ≠ [])

example : simple_sentence_split (str "Hello there. How are you?  Fine!") =
    [str "Hello there.", str "How are you?", str "Fine!"] := by decide

example : simple_sentence_split (str "  ") = [] := by decide

example : simple_sentence_split (str "a. ! b") = [str "a.", str "!", str "b"] := by decide

/-- Worker for `splitWs`; `cur` is the current word accumulated in reverse. -/
def swGo : Str → Str → List Str
  | [], cur => if cur = [] then [] else [cur.reverse]
  | c :: rest, cur =>
    if isSpaceChar c then
      if cur = [] then swGo rest [] else cur.reverse :: swGo rest []
    else
      swGo rest (c :: cur)

/-- Python `str.split()` with no argument: split on whitespace runs,
discarding empty pieces. -/
def splitWs (s : Str) : List Str := swGo s []

example : splitWs (str "  a bb   c ") = [str "a", str "bb", str "c"] := by decide

/-- Python `" ".join(parts)`. -/
def joinSpace : List Str → Str
  | [] => []
  | [s] => s
  | s :: rest => s ++ ' ' :: joinSpace rest

example : joinSpace [str "a", str "bb"] = str "a bb" := by decide

/-- Little-endian decimal digits of `n`, with the input also serving as
recursion fuel (sufficient because `n / 10 < n` for `n > 0`). -/
def digitsGo : Nat → Nat → List Nat
  | _, 0 => []
  | 0, _ + 1 => []
  | f + 1, n + 1 => (n + 1) % 10 :: digitsGo f ((n + 1) / 10)

/-- Python `str(n)` for a non-negative integer. -/
def natToStr (n : Nat) : Str :=
  if n = 0 then ['0'] else ((digitsGo n n).map Nat.digitChar).reverse

example : natToStr 0 = str "0" := by decide

example : natToStr 120 = str "120" := by decide

/-- Embeds `ChunkConfig` of `ingestion/chunker.py` (defaults 500 / 120). -/
structure ChunkConfig where
  chunk_size : Nat
  overlap : Nat
deriving DecidableEq, Repr

/-- Embeds `RetrievedChunk` of `types.py`; `page` is always a string here
because the chunker always fills it with a string (or `"?"`). -/
structure RetrievedChunk where
  chunk_id : Str
  text : Str
  page : Str
  embedding : Option (List ℚ)
  metadata : List (Str × Str)
deriving DecidableEq, Repr

instance : Inhabited RetrievedChunk := ⟨⟨[], [], [], none, []⟩⟩

/-- The page-boundary table: an insertion-ordered `page number → page text`
map, as produced by the external document loader. -/
abbrev PageMap := List (Nat × Str)

/-- Worker for `inferPage`, threading the cumulative character count. -/
def inferPageAux (pointer : Nat) : Nat → PageMap → Option Str
  | _, [] => none
  | cum, (pn, content) :: rest =>
    if pointer ≤ cum + content.length then some (natToStr pn)
    else inferPageAux pointer (cum + content.length) rest

/-- Embeds `_infer_page` of `ingestion/chunker.py` lines 64-72: first page
whose cumulative text length reaches the offset, else the largest page key;
`"?"` when no table is given. -/
def inferPage (pointer : Nat) (pm : PageMap) : Str :=
  if pm = [] then str "?"
  else (inferPageAux pointer 0 pm).getD (natToStr ((pm.map Prod.fst).foldr max 0))

/-- The chunk-emission loop of `chunk_text` (`ingestion/chunker.py` lines
30-60), structurally recursive over the remaining sentences.  `window` is
the accumulated sentence window, `pointer` the cumulative character offset
and `count` the number of chunks already emitted (`len(chunks)`). -/
def chunkTextAux (cfg : ChunkConfig) (pm : PageMap) :
    List Str → List Str → Nat → Nat → List RetrievedChunk
  | [], window, pointer, count =>
    if window = [] then []
    else [⟨str "chunk_" ++ natToStr count, joinSpace window, inferPage pointer pm, none, []⟩]
  | s :: rest, window, pointer, count =>
    let window' := window ++ [s]
    let pointer' := pointer + s.length
    let joined := joinSpace window'
    if cfg.chunk_size ≤ joined.length then
      ⟨str "chunk_" ++ natToStr count, joined, inferPage pointer' pm, none, []⟩ ::
        chunkTextAux cfg pm rest
          (if 0 < cfg.overlap then
            [joinSpace ((splitWs joined).drop ((splitWs joined).length - cfg.overlap))]
          else [])
          pointer' (count + 1)
    else
      chunkTextAux cfg pm rest window' pointer' count

/-- Embeds `chunk_text` of `ingestion/chunker.py` lines 25-61. -/
def chunk_text (full_text : Str) (pm : PageMap) (cfg : ChunkConfig) : List RetrievedChunk :=
  chunkTextAux cfg pm (simple_sentence_split full_text) [] 0 0

example : chunk_text (str "") [] ⟨500, 120⟩ = [] := by decide

example : (chunk_text (str "One. Two. Three.") [] ⟨500, 120⟩).length = 1 := by decide

example : (chunk_text (str "Aaaa. Bbbb. Cccc.") [] ⟨8, 0⟩).map (fun c => c.chunk_id) =
    [str "chunk_0", str "chunk_1"] := by decide

example : (chunk_text (str "Aaaa. Bbbb. Cccc.") [] ⟨8, 0⟩).map (fun c => c.text) =
    [str "Aaaa. Bbbb.", str "Cccc."] := by decide

example : (chunk_text (str "Aaaa. Bbbb. Cccc.") [] ⟨8, 1⟩).map (fun c => c.text) =
    [str "Aaaa. Bbbb.", str "Bbbb. Cccc.", str "Cccc."] := by decide


/-- Square root used by the score model: exact on rationals whose numerator
and denominator are perfect squares (all concrete vectors below are chosen
that way), approximating the floating-point `np.linalg.norm`. -/
def ratSqrt (x : ℚ) : ℚ := (Nat.sqrt x.num.toNat : ℚ) / (Nat.sqrt x.den : ℚ)

/-- Dot product of two vectors (`numpy` `@`). -/
def dotQ (a b : List ℚ) : ℚ := (List.zipWith (fun x y => x * y) a b).sum

/-- Euclidean norm of a vector (`np.linalg.norm`). -/
def normQ (v : List ℚ) : ℚ := ratSqrt (dotQ v v)

/-- The `1e-8` guard of `similarity_search`. -/
def epsQ : ℚ := 1 / 100000000

/-- The cosine score computed by `similarity_search` lines 26-28:
`dot(v/(‖v‖+ε), q/(‖q‖+ε))`. -/
def cosScore (v q : List ℚ) : ℚ := dotQ v q / ((normQ v + epsQ) * (normQ q + epsQ))

/-- The comparison key of `np.argsort` on the score list, made deterministic
by breaking score ties with the index (numpy's sort is stable on the small
arrays exercised here, so equal scores keep ascending index order). -/
def asLe (scores : List ℚ) (i j : Nat) : Prop :=
  scores.getD i 0 < scores.getD j 0 ∨ (scores.getD i 0 = scores.getD j 0 ∧ i ≤ j)

instance (scores : List ℚ) : DecidableRel (asLe scores) := fun _ _ => by
  unfold asLe; infer_instance

/-- Embeds `scores.argsort()`: the indices `0..n-1` sorted by ascending
score, equal scores in ascending index order. -/
def argsortQ (scores : List ℚ) : List Nat :=
  List.insertionSort (asLe scores) (List.range scores.length)

/-- Python's slice `l[-k:]`: the last `k` elements, except that `l[-0:]`
is the whole list (the `k = 0` case of `similarity_search`). -/
def pySliceLast (l : List Nat) (k : Nat) : List Nat :=
  if k = 0 then l else l.drop (l.length - k)

/-- The index order in which `similarity_search` returns results:
`scores.argsort()[-k:][::-1]`. -/
def searchOrder (scores : List ℚ) (k : Nat) : List Nat :=
  (pySliceLast (argsortQ scores) k).reverse

/-- Embeds `RetrievalResult` of `types.py`. -/
structure RetrievalResult where
  chunk : RetrievedChunk
  score : ℚ
deriving DecidableEq, Repr

/-- Embeds `VectorStore` of `retrieval/vector_store.py`: chunk/embedding
pairs held in insertion order. -/
structure VectorStore where
  embeddings : List (List ℚ)
  chunks : List RetrievedChunk
deriving DecidableEq, Repr

/-- Embeds `VectorStore.add`: append to both tables. -/
def VectorStore.add (s : VectorStore) (chunk : RetrievedChunk) (embedding : List ℚ) :
    VectorStore :=
  ⟨s.embeddings ++ [embedding], s.chunks ++ [chunk]⟩

/-- The score list of a query against the store (`doc_norms @ query_norm`). -/
def VectorStore.scoresOf (s : VectorStore) (q : List ℚ) : List ℚ :=
  s.embeddings.map (fun v => cosScore v q)

/-- Embeds `VectorStore.similarity_search` of `retrieval/vector_store.py`
lines 21-30: empty store returns `[]`; otherwise rank all stored vectors by
cosine score and return `scores.argsort()[-k:][::-1]`, looking each index
up in the chunk table. -/
def VectorStore.similarity_search (s : VectorStore) (q : List ℚ) (k : Nat) :
    List RetrievalResult :=
  if s.embeddings = [] then []
  else
    (searchOrder (s.scoresOf q) k).map
      (fun i => ⟨s.chunks.getD i default, (s.scoresOf q).getD i 0⟩)

/-- A two-chunk store whose chunks have identical embeddings (a score tie). -/
def tieStore : VectorStore :=
  ⟨[[1], [1]],
   [⟨str "chunk_0", str "a", str "?", some [1], []⟩,
    ⟨str "chunk_1", str "b", str "?", some [1], []⟩]⟩

example : (VectorStore.similarity_search ⟨[], []⟩ [1] 3) = [] := rfl

/-- On a two-element score list with equal entries, `argsort` keeps the
ascending index order `[0, 1]` (stable sort). -/
lemma argsortQ_pair_eq (s : List ℚ) (hlen : s.length = 2) (h : s.getD 0 0 = s.getD 1 0) :
    argsortQ s = [0, 1] := by
  unfold argsortQ
  rw [hlen]
  have h01 : asLe s 0 1 := Or.inr ⟨h, by omega⟩
  show List.insertionSort (asLe s) [0, 1] = [0, 1]
  simp only [List.insertionSort, List.orderedInsert]
  rw [if_pos h01]

example : (tieStore.similarity_search [1] 2).map (fun r => r.chunk.chunk_id) =
    [str "chunk_1", str "chunk_0"] := by
  have h : argsortQ (tieStore.scoresOf [1]) = [0, 1] := argsortQ_pair_eq _ rfl rfl
  simp only [VectorStore.similarity_search, searchOrder, pySliceLast, h]
  rw [if_neg (by simp [tieStore])]
  rfl

example : (tieStore.similarity_search [1] 0).length = 2 := by
  have h : argsortQ (tieStore.scoresOf [1]) = [0, 1] := argsortQ_pair_eq _ rfl rfl
  simp only [VectorStore.similarity_search, searchOrder, pySliceLast, h]
  rw [if_neg (by simp [tieStore])]
  rfl

/-- Embeds `AudienceStyle` of `types.py`. -/
inductive AudienceStyle where
  | technical
  | plain
  | press
deriving DecidableEq, Repr

/-- The `.value` string of an `AudienceStyle` member. -/
def AudienceStyle.value : AudienceStyle → Str
  | .technical => str "technical"
  | .plain => str "plain"
  | .press => str "press"

/-- Embeds `Duration` of `types.py`. -/
inductive Duration where
  | short30s
  | medium90s
  | long5min
deriving DecidableEq, Repr

/-- The `.value` string of a `Duration` member. -/
def Duration.value : Duration → Str
  | .short30s => str "30s"
  | .medium90s => str "90s"
  | .long5min => str "5min"

/-- Embeds `AudienceProfile` of `types.py`. -/
structure AudienceProfile where
  label : Str
  style : AudienceStyle
  expertise_notes : Str
  tone_directives : List Str
deriving DecidableEq, Repr

/-- Embeds `GenerationConfig` of `types.py`. -/
structure GenerationConfig where
  duration : Duration
  style : AudienceStyle
  include_tweets : Bool
  include_linkedin : Bool
  include_speaker_notes : Bool
  safety_checks : Bool
deriving DecidableEq, Repr

/-- Embeds `Provenance` of `types.py`. -/
structure Provenance where
  chunk_id : Str
  page : Str
  score : ℚ
deriving DecidableEq, Repr

instance : Inhabited Provenance := ⟨⟨str "?", str "?", 0⟩⟩

/-- Embeds `ContentBlock` of `types.py`. -/
structure ContentBlock where
  text : Str
  provenance : List Provenance
deriving DecidableEq, Repr

instance : Inhabited ContentBlock := ⟨⟨[], []⟩⟩

/-- Embeds `GenerationOutput` of `types.py`; `metadata` is an
insertion-ordered string map. -/
structure GenerationOutput where
  slides : List ContentBlock
  script : List ContentBlock
  notes : List ContentBlock
  tweets : List ContentBlock
  linkedin_summaries : List ContentBlock
  metadata : List (Str × Str)
deriving DecidableEq, Repr

/-- Embeds `SLIDE_BUDGET` of `generation/generator.py` lines 14-18. -/
def SLIDE_BUDGET : Duration → Nat
  | .short30s => 3
  | .medium90s => 5
  | .long5min => 7

/-- Embeds `SCRIPT_SENTENCES` of `generation/generator.py` lines 20-24. -/
def SCRIPT_SENTENCES : Duration → Nat
  | .short30s => 6
  | .medium90s => 14
  | .long5min => 30

/-- Embeds `_style_prefix` of `generation/generator.py` lines 27-32.  The
`.get(style, "Insight:")` default is unreachable because `AudienceStyle` is
a closed enum, so the three-way match below is exact. -/
def styleLabel : AudienceStyle → Str
  | .technical => str "Technical insight:"
  | .plain => str "Plain-language take:"
  | .press => str "Headline:"

/-- Embeds `_apply_style` of `generation/generator.py` lines 100-105. -/
def applyStyle (block : ContentBlock) (style : AudienceStyle) (withIndex : Bool)
    (index : Nat) : ContentBlock :=
  if withIndex then
    ⟨str "Slide " ++ natToStr index ++ str " - " ++ styleLabel style ++ str " " ++ block.text,
     block.provenance⟩
  else
    ⟨styleLabel style ++ str " " ++ block.text, block.provenance⟩

/-- The sentence-collection loop of `RuleBasedGenerator.generate_outputs`
(`generation/generator.py` lines 56-64): split every retrieved chunk's text
into sentences, safety-filter each, and attach the provenance snapshot of
the originating match. -/
def sentenceBlocks (retrievals : List RetrievalResult) : List ContentBlock :=
  (retrievals.map (fun result =>
    (simple_sentence_split result.chunk.text).map (fun sentence =>
      ⟨enforce_safety sentence,
       [⟨result.chunk.chunk_id, result.chunk.page, result.score⟩]⟩))).flatten

/-- Embeds `RuleBasedGenerator.generate_outputs` of
`generation/generator.py` lines 49-97. -/
def RuleBasedGenerator.generate_outputs (instruction : Str)
    (retrievals : List RetrievalResult) (config : GenerationConfig)
    (audience : AudienceProfile) : GenerationOutput :=
  let sentences := sentenceBlocks retrievals
  let script_budget := SCRIPT_SENTENCES config.duration
  let slides_budget := SLIDE_BUDGET config.duration
  let idxs := List.range (min slides_budget sentences.length)
  let slides := idxs.map (fun idx =>
    applyStyle (sentences.getD idx default) audience.style true (idx + 1))
  let notes :=
    if config.include_speaker_notes then
      idxs.map (fun idx =>
        ⟨str "Speaker note " ++ natToStr (idx + 1) ++ str ": Expand on " ++
          (sentences.getD idx default).text ++ str " with a visual cue.",
         (sentences.getD idx default).provenance⟩)
    else []
  let script := sentences.take script_budget
  let tweets :=
    if config.include_tweets then
      (sentences.take (slides_budget * 2)).map (fun block =>
        ⟨(block.text ++ str " (" ++ (block.provenance.headD default).chunk_id ++
            str "@p" ++ (block.provenance.headD default).page ++ str ")").take 260,
         block.provenance⟩)
    else []
  let linkedin :=
    if config.include_linkedin then
      [⟨(joinSpace ((sentences.take 5).map (fun b => b.text))).take 900,
        ((sentences.take 5).map (fun b => b.provenance)).flatten⟩]
    else []
  ⟨slides, script, notes, tweets, linkedin,
   [(str "instruction", instruction), (str "audience", audience.label),
    (str "style", audience.style.value), (str "duration", config.duration.value)]⟩

/-- A configuration with all include-flags enabled. -/
def cfgAll (d : Duration) (s : AudienceStyle) : GenerationConfig := ⟨d, s, true, true, true, true⟩

/-- A plain-style example audience. -/
def audEx : AudienceProfile := ⟨str "General public", .plain, str "", []⟩

example :
    (RuleBasedGenerator.generate_outputs (str "go") [] (cfgAll .short30s .plain)
      audEx).linkedin_summaries = [⟨[], []⟩] := by decide

example :
    (RuleBasedGenerator.generate_outputs (str "go")
      [⟨⟨str "chunk_0", str "Sun is hot. Ice is cold.", str "1", none, []⟩, 1⟩]
      (cfgAll .short30s .plain) audEx).slides.map (fun b => b.text) =
    [str "Slide 1 - Plain-language take: Sun is hot.",
     str "Slide 2 - Plain-language take: Ice is cold."] := by decide

/-- Parsed JSON values, the result type of the external `json.loads`. -/
inductive Json where
  | null
  | bool (b : Bool)
  | num (q : ℚ)
  | str (s : Str)
  | arr (items : List Json)
  | obj (fields : List (Str × Json))

/-- Dictionary lookup (`dict.get`); JSON object keys are unique, so the
first match is the value. -/
def jsonLookup (fields : List (Str × Json)) (key : Str) : Option Json :=
  (fields.find? (fun f => f.1 = key)).map (fun f => f.2)

/-- Dynamic-typing errors of the Python mapping code (`AttributeError`,
`TypeError`, `ValueError`): raised, not caught, by
`LLMGenerator.generate_outputs` when decoded JSON has an unexpected shape. -/
inductive PyErr where
  | attributeError
  | typeError
deriving DecidableEq, Repr

/-- Python `str(v)` on a JSON scalar, used for the `chunk_id` / `page`
provenance fields.  Rendering of non-integral floats and of nested
containers is not modelled (never exercised by the claims); they map to a
placeholder. -/
def jsonToStr : Json → Str
  | .str s => s
  | .null => str "None"
  | .bool true => str "True"
  | .bool false => str "False"
  | .num q => if q.den = 1 && decide (0 ≤ q.num) then natToStr q.num.toNat else str "?"
  | .arr _ => str "?"
  | .obj _ => str "?"

/-- Python `float(v)`: numbers and booleans convert; other shapes raise
(numeric strings, which Python would also accept, are not exercised). -/
def pyFloatOfJson : Json → Except PyErr ℚ
  | .num q => .ok q
  | .bool b => .ok (if b then 1 else 0)
  | _ => .error .typeError

/-- One provenance entry of the decoded model output
(`generation/generator.py` lines 154-161): `prov.get` with defaults
`"?"` / `"?"` / `0.0`; a non-dict entry raises. -/
def provOfJson : Json → Except PyErr Provenance
  | .obj fields => do
    let score ← pyFloatOfJson ((jsonLookup fields (str "score")).getD (.num 0))
    pure ⟨jsonToStr ((jsonLookup fields (str "chunk_id")).getD (.str (str "?"))),
          jsonToStr ((jsonLookup fields (str "page")).getD (.str (str "?"))),
          score⟩
  | _ => .error .attributeError

/-- One item of a decoded section (`generation/generator.py` lines 149-162):
a bare string, or a dict with `text` and an optional `provenance` list
(a non-list `provenance` value is ignored); other item shapes raise. -/
def itemToBlock : Json → Except PyErr ContentBlock
  | .str s => .ok ⟨s, []⟩
  | .obj fields => do
    let text ←
      match jsonLookup fields (str "text") with
      | none => Except.ok (str "")
      | some (.str s) => Except.ok s
      | some _ => Except.error PyErr.typeError
    let prov ←
      match jsonLookup fields (str "provenance") with
      | some (.arr ps) => ps.mapM provOfJson
      | _ => Except.ok []
    pure ⟨text, prov⟩
  | _ => .error .attributeError

/-- Embeds `_blocks` of `generation/generator.py` lines 146-163: fetch the
key with default `[]` and map each item; iterating a string yields its
characters, iterating a dict its keys, and non-iterable values raise. -/
def blocksOfJson (data : List (Str × Json)) (key : Str) : Except PyErr (List ContentBlock) :=
  match (jsonLookup data key).getD (.arr []) with
  | .arr items => items.mapM itemToBlock
  | .str s => .ok (s.map (fun c => ⟨[c], []⟩))
  | .obj fields => .ok (fields.map (fun f => ⟨f.1, []⟩))
  | _ => .error .typeError

/-- Embeds `LLMGenerator.generate_outputs` of `generation/generator.py`
lines 116-178.  `jsonLoads` models the external `json.loads` (`none` =
`JSONDecodeError`), and `raw` is the backend's response to the built
prompt; the prompt construction itself only determines which response
string arrives, which the theorems quantify over. -/
def LLMGenerator.generate_outputs (jsonLoads : Str → Option Json) (raw : Str)
    (instruction : Str) (retrievals : List RetrievalResult) (config : GenerationConfig)
    (audience : AudienceProfile) : Except PyErr GenerationOutput :=
  match jsonLoads raw with
  | none => .ok (RuleBasedGenerator.generate_outputs instruction retrievals config audience)
  | some (.obj fields) => do
    let slides ← blocksOfJson fields (str "slides")
    let script ← blocksOfJson fields (str "script")
    let notes ← blocksOfJson fields (str "notes")
    let tweets ← blocksOfJson fields (str "tweets")
    let linkedin ← blocksOfJson fields (str "linkedin")
    pure ⟨slides, script, notes, tweets, linkedin,
      [(str "instruction", instruction), (str "audience", audience.label),
       (str "style", audience.style.value), (str "duration", config.duration.value),
       (str "generator", str "llm")]⟩
  | some _ => .error .attributeError

/-- Embeds `ChangeRecord` of `types.py`; the wall-clock timestamp
(`datetime.utcnow()`) is modelled as an abstract tick passed by the caller. -/
structure ChangeRecord where
  timestamp : Nat
  user_request : Str
  target_section : Str
  before : Str
  after : Str
  rationale : Str
deriving DecidableEq, Repr

/-- Embeds `ConversationTurn` of `types.py`. -/
structure ConversationTurn where
  role : Str
  content : Str
  output_snapshot : Option GenerationOutput
  change_record : Option ChangeRecord
deriving DecidableEq, Repr

/-- Embeds `Retriever` of `retrieval/retriever.py`; the embedding manager
is external, so only the populated store is state. -/
structure Retriever where
  store : VectorStore
deriving DecidableEq, Repr

/-- Embeds `Retriever.from_chunks` of `retrieval/retriever.py` lines 20-28:
embed every chunk text in one batch (`embed` models the external backend),
populate the store in order, and back-fill each chunk's `embedding` field. -/
def Retriever.from_chunks (embed : Str → List ℚ) (chunks : List RetrievedChunk) : Retriever :=
  ⟨⟨chunks.map (fun c => embed c.text),
    chunks.map (fun c => { c with embedding := some (embed c.text) })⟩⟩

/-- The mutable session state of `SaralChatbot` (`pipeline.py` lines 31-48):
the conversation log's turns, the current retriever, source path and
current output.  The generator choice and backends are construction-time
parameters, not mutable state. -/
structure ChatbotState where
  session_id : Str
  conversation : List ConversationTurn
  retriever : Option Retriever
  sources_path : Option Str
  current_output : Option GenerationOutput
deriving DecidableEq, Repr

/-- Embeds `SaralChatbot.ingest` of `pipeline.py` lines 51-56 for a
document that loads successfully: `text`/`pm` are the result of the
external `load_document(path)`, `embed` the external embedding backend.
The retriever is rebuilt from the new document's chunks and the source
path recorded; no other field is touched. -/
def ingest (embed : Str → List ℚ) (text : Str) (pm : PageMap) (path : Str)
    (cfg : ChunkConfig) (s : ChatbotState) : ChatbotState :=
  let chunks := chunk_text text pm cfg
  { s with retriever := some (Retriever.from_chunks embed chunks),
           sources_path := some path }

/-- Embeds `_apply_directive` of `pipeline.py` lines 123-134. -/
def applyDirective (text : Str) (directive : Str) : Str :=
  let directive_lower := pyLower directive
  let text1 :=
    if containsSub (str "less technical") directive_lower then
      replaceAll (replaceAll text (str "electrolyzer") (str "hydrogen machine"))
        (str "provenance") (str "source")
    else text
  let text2 :=
    if containsSub (str "more visual") directive_lower then
      text1 ++ str " [Add: photo cue or chart icon]"
    else text1
  if containsSub (str "shorter") directive_lower then
    joinSpace ((splitWs text2).take (max 5 ((splitWs text2).length / 2))) ++ str "..."
  else text2

example : applyDirective (str "a b c d e f g h") (str "shorter") = str "a b c d e..." := by decide

example : applyDirective (str "a b c d e") (str "Make it shorter") = str "a b c d e..." := by
  decide

example : applyDirective (str "keep provenance") (str "LESS TECHNICAL please") =
    str "keep source" := by decide

example : applyDirective (str "x") (str "rearrange") = str "x" := by decide

/-- Failure kinds of `revise_section` (`RuntimeError`, `ValueError`,
`IndexError` in the source). -/
inductive ReviseErr where
  | noGeneration
  | unsupportedSection
  | indexOutsideRange
deriving DecidableEq, Repr

/-- The `section_map` lookup of `revise_section` (`pipeline.py` lines
79-85): the three revisable sections, else `None`. -/
def sectionBlocksOf (out : GenerationOutput) (sect : Str) : Option (List ContentBlock) :=
  if sect = str "slides" then some out.slides
  else if sect = str "script" then some out.script
  else if sect = str "notes" then some out.notes
  else none

/-- Write an updated block list back into its section; only called with one
of the three section names accepted by `sectionBlocksOf`. -/
def setSection (out : GenerationOutput) (sect : Str) (blocks : List ContentBlock) :
    GenerationOutput :=
  if sect = str "slides" then { out with slides := blocks }
  else if sect = str "script" then { out with script := blocks }
  else { out with notes := blocks }

/-- Embeds `SaralChatbot.revise_section` of `pipeline.py` lines 76-102,
together with `_log_turn` (lines 108-117).  The returned state is the
session state at exit: unchanged on each of the three failure paths, which
in the source all raise before any mutation or logging.  `now` models
`datetime.utcnow()`. -/
def revise_section (now : Nat) (s : ChatbotState) (sect : Str) (index : Int)
    (directive : Str) : ChatbotState × Except ReviseErr ChangeRecord :=
  match s.current_output with
  | none => (s, .error .noGeneration)
  | some out =>
    match sectionBlocksOf out sect with
    | none => (s, .error .unsupportedSection)
    | some blocks =>
      if 0 ≤ index && index < (blocks.length : Int) then
        let i := index.toNat
        let before := (blocks.getD i default).text
        let after := applyDirective before directive
        let blocks' := blocks.set i { blocks.getD i default with text := after }
        let change : ChangeRecord :=
          ⟨now, directive, sect ++ str "[" ++ natToStr i ++ str "]", before, after,
           str "Applied directive '" ++ directive ++ str "' via rule-based mutation."⟩
        let s' :=
          { s with
            current_output := some (setSection out sect blocks'),
            conversation := s.conversation ++
              [⟨str "user", directive, none, none⟩,
               ⟨str "assistant", str "Updated " ++ sect ++ str "[" ++ natToStr i ++ str "]",
                none, some change⟩] }
        (s', .ok change)
      else (s, .error .indexOutsideRange)

/-- All blocks of a generation output, across the five sections. -/
def outputBlocks (o : GenerationOutput) : List ContentBlock :=
  o.slides ++ o.script ++ o.notes ++ o.tweets ++ o.linkedin_summaries

/-- C4: if the backend response fails structured (JSON) decoding, the
model-backed strategy returns exactly the rule-based strategy's output for
the same instruction, retrievals, config and audience — a full fallback,
so the caller receives a well-formed `GenerationOutput`. -/
theorem c4_llm_fallback (jsonLoads : Str → Option Json) (raw instruction : Str)
    (retrievals : List RetrievalResult) (config : GenerationConfig)
    (audience : AudienceProfile) (h : jsonLoads raw = none) :
    LLMGenerator.generate_outputs jsonLoads raw instruction retrievals config audience =
      .ok (RuleBasedGenerator.generate_outputs instruction retrievals config audience) := by
  unfold LLMGenerator.generate_outputs
  rw [h]

/-- Witness for C4 at a decoder that rejects the concrete response. -/
theorem c4_llm_fallback_witness :
    (fun _ : Str => (none : Option Json)) (str "plain text, not json") = none ∧
    LLMGenerator.generate_outputs (fun _ => none) (str "plain text, not json")
        (str "summarize") [] (cfgAll .short30s .plain) audEx =
      .ok (RuleBasedGenerator.generate_outputs (str "summarize") []
        (cfgAll .short30s .plain) audEx) :=
  ⟨rfl, c4_llm_fallback (fun _ => none) (str "plain text, not json") (str "summarize") []
    (cfgAll .short30s .plain) audEx rfl⟩

/-- A session state that already holds a generated output (one slide). -/
def c3PriorOutput : GenerationOutput :=
  ⟨[⟨str "old slide", [⟨str "chunk_0", str "?", 1⟩]⟩], [], [], [], [],
   [(str "instruction", str "old request")]⟩

/-- A session holding `c3PriorOutput` as its current output. -/
def c3PriorState : ChatbotState := ⟨str "sid", [], none, none, some c3PriorOutput⟩

/-- C3 counterexample: ingesting a new document does not discard the prior
current output — it stays in the state and is still revisable afterwards,
contradicting the claim that after `ingest` no output generated from a
previously ingested document remains revisable. -/
theorem c3_counterexample :
    (ingest (fun _ => [1]) (str "New doc.") [] (str "new.txt") ⟨500, 120⟩
        c3PriorState).current_output = some c3PriorOutput ∧
    (revise_section 0
        (ingest (fun _ => [1]) (str "New doc.") [] (str "new.txt") ⟨500, 120⟩ c3PriorState)
        (str "slides") 0 (str "make it pop")).2.isOk = true := by
  constructor
  · rfl
  · rfl

/-- C3 (amended): `ingest` on a successfully loaded document builds a fresh
retriever/index from the new document's chunks and records the source path,
but leaves the current output and the conversation log untouched, so a
previously generated output remains revisable. -/
theorem c3_amended_ingest (embed : Str → List ℚ) (text : Str) (pm : PageMap)
    (path : Str) (cfg : ChunkConfig) (s : ChatbotState) :
    (ingest embed text pm path cfg s).retriever =
        some (Retriever.from_chunks embed (chunk_text text pm cfg)) ∧
    (ingest embed text pm path cfg s).sources_path = some path ∧
    (ingest embed text pm path cfg s).current_output = s.current_output ∧
    (ingest embed text pm path cfg s).conversation = s.conversation :=
  ⟨rfl, rfl, rfl, rfl⟩

/-- Styling a block never changes its provenance. -/
lemma applyStyle_provenance (b : ContentBlock) (st : AudienceStyle) (w : Bool) (i : Nat) :
    (applyStyle b st w i).provenance = b.provenance := by
  unfold applyStyle
  split <;> rfl

/-- Every collected sentence block carries exactly the provenance snapshot
of its originating retrieval match. -/
lemma sentenceBlocks_spec (retrievals : List RetrievalResult) (b : ContentBlock)
    (hb : b ∈ sentenceBlocks retrievals) :
    b.provenance ≠ [] ∧
      ∀ p ∈ b.provenance, p.chunk_id ∈ retrievals.map (fun r => r.chunk.chunk_id) := by
  unfold sentenceBlocks at hb
  rw [List.mem_flatten] at hb
  obtain ⟨l, hl, hbl⟩ := hb
  rw [List.mem_map] at hl
  obtain ⟨r, hr, rfl⟩ := hl
  rw [List.mem_map] at hbl
  obtain ⟨sent, _, rfl⟩ := hbl
  refine ⟨by simp, ?_⟩
  intro p hp
  simp only [List.mem_singleton] at hp
  subst hp
  exact List.mem_map.mpr ⟨r, hr, rfl⟩

/-- Provenance facts for every block of a rule-based generation: the
chunk-id subset property holds unconditionally, and non-emptiness holds as
soon as at least one sentence was collected from the retrievals. -/
lemma ruleGen_provenance (instruction : Str) (retrievals : List RetrievalResult)
    (config : GenerationConfig) (audience : AudienceProfile) (b : ContentBlock)
    (hb : b ∈ outputBlocks
      (RuleBasedGenerator.generate_outputs instruction retrievals config audience)) :
    (sentenceBlocks retrievals ≠ [] → b.provenance ≠ []) ∧
      ∀ p ∈ b.provenance, p.chunk_id ∈ retrievals.map (fun r => r.chunk.chunk_id) := by
  unfold outputBlocks RuleBasedGenerator.generate_outputs at hb
  simp only [List.mem_append] at hb
  rcases hb with ((((hb | hb) | hb) | hb) | hb)
  · -- slides
    simp only [List.mem_map, List.mem_range] at hb
    obtain ⟨idx, hidx, rfl⟩ := hb
    have hmem : (sentenceBlocks retrievals).getD idx default ∈ sentenceBlocks retrievals := by
      rw [List.getD_eq_getElem _ _ (by omega)]
      exact List.getElem_mem _
    have := sentenceBlocks_spec retrievals _ hmem
    rcases this with ⟨h1, h2⟩
    rw [applyStyle_provenance]
    exact ⟨fun _ => h1, h2⟩
  · -- script
    have hmem : b ∈ sentenceBlocks retrievals := List.take_subset _ _ hb
    have := sentenceBlocks_spec retrievals _ hmem
    exact ⟨fun _ => this.1, this.2⟩
  · -- notes
    by_cases hn : config.include_speaker_notes
    · simp only [hn, if_pos, List.mem_map, List.mem_range] at hb
      obtain ⟨idx, hidx, rfl⟩ := hb
      have hmem : (sentenceBlocks retrievals).getD idx default ∈ sentenceBlocks retrievals := by
        rw [List.getD_eq_getElem _ _ (by omega)]
        exact List.getElem_mem _
      have := sentenceBlocks_spec retrievals _ hmem
      exact ⟨fun _ => this.1, this.2⟩
    · simp only [hn] at hb
      simp at hb
  · -- tweets
    by_cases ht : config.include_tweets
    · simp only [ht, if_pos, List.mem_map] at hb
      obtain ⟨blk, hblk, rfl⟩ := hb
      have hmem : blk ∈ sentenceBlocks retrievals := List.take_subset _ _ hblk
      have := sentenceBlocks_spec retrievals _ hmem
      exact ⟨fun _ => this.1, this.2⟩
    · simp only [ht] at hb
      simp at hb
  · -- linkedin
    by_cases hl : config.include_linkedin
    · simp only [hl, if_pos, List.mem_singleton] at hb
      subst hb
      constructor
      · intro hne
        obtain ⟨x, xs, hxx⟩ : ∃ x xs, sentenceBlocks retrievals = x :: xs := by
          rcases h : sentenceBlocks retrievals with _ | ⟨x, xs⟩
          · exact absurd h hne
          · exact ⟨x, xs, rfl⟩
        have hx : x ∈ sentenceBlocks retrievals := by
          rw [hxx]; exact List.mem_cons_self _ _
        have hxprov := (sentenceBlocks_spec retrievals x hx).1
        rw [hxx]
        simp only [List.take_succ_cons, List.map_cons, List.flatten_cons]
        intro habs
        rw [List.append_eq_nil] at habs
        exact hxprov habs.1
      · intro p hp
        simp only [List.mem_flatten, List.mem_map] at hp
        obtain ⟨l, ⟨blk, hblk, rfl⟩, hpl⟩ := hp
        have hmem : blk ∈ sentenceBlocks retrievals := List.take_subset _ _ hblk
        exact (sentenceBlocks_spec retrievals _ hmem).2 p hpl
    · simp only [hl] at hb
      simp at hb

/-- C2 counterexample: with the empty retrieval list and all include-flags
enabled, the rule-based strategy still emits one LinkedIn block, and that
block's provenance list is empty — so not every emitted `ContentBlock` has
non-empty provenance. -/
theorem c2_counterexample :
    (RuleBasedGenerator.generate_outputs (str "go") [] (cfgAll .short30s .plain)
        audEx).linkedin_summaries = [⟨[], []⟩] ∧
    ¬ ∀ b ∈ outputBlocks (RuleBasedGenerator.generate_outputs (str "go") []
        (cfgAll .short30s .plain) audEx), b.provenance ≠ [] := by
  refine ⟨by decide, ?_⟩
  intro h
  exact h ⟨[], []⟩ (by decide) rfl

/-- C2 (amended): for every retrieval list and all-flags-enabled
configuration, every chunk id appearing in any emitted block's provenance
is the chunk id of a chunk referenced by the input retrieval matches; and
provided the retrievals yield at least one sentence, every emitted block
(slides, script, notes, tweets, linkedin) has non-empty provenance.  (The
sole exception to non-emptiness, forced by the counterexample, is the
LinkedIn block emitted when no sentences were collected.) -/
theorem c2_amended_provenance (instruction : Str) (retrievals : List RetrievalResult)
    (config : GenerationConfig) (audience : AudienceProfile)
    (ht : config.include_tweets = true) (hl : config.include_linkedin = true)
    (hn : config.include_speaker_notes = true) :
    (∀ b ∈ outputBlocks
        (RuleBasedGenerator.generate_outputs instruction retrievals config audience),
      ∀ p ∈ b.provenance, p.chunk_id ∈ retrievals.map (fun r => r.chunk.chunk_id)) ∧
    (sentenceBlocks retrievals ≠ [] →
      ∀ b ∈ outputBlocks
        (RuleBasedGenerator.generate_outputs instruction retrievals config audience),
      b.provenance ≠ []) := by
  constructor
  · intro b hb
    exact (ruleGen_provenance instruction retrievals config audience b hb).2
  · intro hne b hb
    exact (ruleGen_provenance instruction retrievals config audience b hb).1 hne

/-- Witness for C2 at a one-chunk retrieval list. -/
theorem c2_amended_provenance_witness :
    (cfgAll .short30s .plain).include_tweets = true ∧
    (∀ b ∈ outputBlocks (RuleBasedGenerator.generate_outputs (str "go")
        [⟨⟨str "chunk_0", str "Sun is hot.", str "1", none, []⟩, 1⟩]
        (cfgAll .short30s .plain) audEx),
      ∀ p ∈ b.provenance,
        p.chunk_id ∈ [⟨⟨str "chunk_0", str "Sun is hot.", str "1", none, []⟩,
          (1 : ℚ)⟩].map (fun r : RetrievalResult => r.chunk.chunk_id)) ∧
    (sentenceBlocks [⟨⟨str "chunk_0", str "Sun is hot.", str "1", none, []⟩, 1⟩] ≠ [] →
      ∀ b ∈ outputBlocks (RuleBasedGenerator.generate_outputs (str "go")
        [⟨⟨str "chunk_0", str "Sun is hot.", str "1", none, []⟩, 1⟩]
        (cfgAll .short30s .plain) audEx),
      b.provenance ≠ []) :=
  ⟨rfl,
   (c2_amended_provenance (str "go")
     [⟨⟨str "chunk_0", str "Sun is hot.", str "1", none, []⟩, 1⟩]
     (cfgAll .short30s .plain) audEx rfl rfl rfl).1,
   (c2_amended_provenance (str "go")
     [⟨⟨str "chunk_0", str "Sun is hot.", str "1", none, []⟩, 1⟩]
     (cfgAll .short30s .plain) audEx rfl rfl rfl).2⟩

/-- C5: with at least 10 collected sentences, the duration-keyed budget
tables give exactly 3 slides and at most 6 script blocks for `"30s"`, and
exactly 7 slides and at most 30 script blocks for `"5min"`; the two budget
tables hold the spec's values. -/
theorem c5_budget_allocation (instruction : Str) (retrievals : List RetrievalResult)
    (audience : AudienceProfile) (config : GenerationConfig)
    (h : 10 ≤ (sentenceBlocks retrievals).length) :
    (SLIDE_BUDGET .short30s = 3 ∧ SLIDE_BUDGET .medium90s = 5 ∧
      SLIDE_BUDGET .long5min = 7 ∧ SCRIPT_SENTENCES .short30s = 6 ∧
      SCRIPT_SENTENCES .medium90s = 14 ∧ SCRIPT_SENTENCES .long5min = 30) ∧
    (config.duration = .short30s →
      (RuleBasedGenerator.generate_outputs instruction retrievals config
        audience).slides.length = 3 ∧
      (RuleBasedGenerator.generate_outputs instruction retrievals config
        audience).script.length ≤ 6) ∧
    (config.duration = .long5min →
      (RuleBasedGenerator.generate_outputs instruction retrievals config
        audience).slides.length = 7 ∧
      (RuleBasedGenerator.generate_outputs instruction retrievals config
        audience).script.length ≤ 30) := by
  refine ⟨⟨rfl, rfl, rfl, rfl, rfl, rfl⟩, ?_, ?_⟩ <;> intro hd <;>
    unfold RuleBasedGenerator.generate_outputs <;> rw [hd] <;>
    simp only [SLIDE_BUDGET, SCRIPT_SENTENCES, List.length_map, List.length_range,
      List.length_take] <;> omega

/-- Witness for C5 at ten one-sentence retrieval chunks. -/
def c5Retrievals : List RetrievalResult :=
  (List.range 10).map (fun i =>
    ⟨⟨str "chunk_" ++ natToStr i, str "Sun is hot.", str "1", none, []⟩, 1⟩)

/-- Witness for C5: the hypothesis holds at `c5Retrievals`. -/
theorem c5_budget_allocation_witness :
    10 ≤ (sentenceBlocks c5Retrievals).length ∧
    ((SLIDE_BUDGET .short30s = 3 ∧ SLIDE_BUDGET .medium90s = 5 ∧
      SLIDE_BUDGET .long5min = 7 ∧ SCRIPT_SENTENCES .short30s = 6 ∧
      SCRIPT_SENTENCES .medium90s = 14 ∧ SCRIPT_SENTENCES .long5min = 30) ∧
    ((cfgAll .short30s .plain).duration = .short30s →
      (RuleBasedGenerator.generate_outputs (str "go") c5Retrievals
        (cfgAll .short30s .plain) audEx).slides.length = 3 ∧
      (RuleBasedGenerator.generate_outputs (str "go") c5Retrievals
        (cfgAll .short30s .plain) audEx).script.length ≤ 6) ∧
    ((cfgAll .short30s .plain).duration = .long5min →
      (RuleBasedGenerator.generate_outputs (str "go") c5Retrievals
        (cfgAll .short30s .plain) audEx).slides.length = 7 ∧
      (RuleBasedGenerator.generate_outputs (str "go") c5Retrievals
        (cfgAll .short30s .plain) audEx).script.length ≤ 30)) :=
  ⟨by decide, c5_budget_allocation (str "go") c5Retrievals audEx (cfgAll .short30s .plain)
    (by decide)⟩

/-- Setting a list entry to its own current value is a no-op. -/
lemma set_getD_self {α : Type} (l : List α) (i : Nat) (d : α) (h : i < l.length) :
    l.set i (l.getD i d) = l := by
  induction l generalizing i with
  | nil => simp at h
  | cons x xs ih =>
    cases i with
    | zero => rfl
    | succ j =>
      simp only [List.length_cons, Nat.succ_lt_succ_iff] at h
      simp only [List.getD_cons_succ, List.set_cons_succ]
      rw [ih j h]

/-- Evaluation of `revise_section` with no current output. -/
lemma revise_section_none (now : Nat) (s : ChatbotState) (sect : Str) (index : Int)
    (directive : Str) (h : s.current_output = none) :
    revise_section now s sect index directive = (s, .error .noGeneration) := by
  unfold revise_section
  rw [h]

/-- Evaluation of `revise_section` on an unsupported section name. -/
lemma revise_section_badsect (now : Nat) (s : ChatbotState) (out : GenerationOutput)
    (sect : Str) (index : Int) (directive : Str) (hout : s.current_output = some out)
    (hsb : sectionBlocksOf out sect = none) :
    revise_section now s sect index directive = (s, .error .unsupportedSection) := by
  simp only [revise_section, hout, hsb]

/-- Evaluation of `revise_section` on an out-of-bounds index. -/
lemma revise_section_oob (now : Nat) (s : ChatbotState) (out : GenerationOutput)
    (sect : Str) (index : Int) (directive : Str) (blocks : List ContentBlock)
    (hout : s.current_output = some out) (hsb : sectionBlocksOf out sect = some blocks)
    (hoob : ¬(0 ≤ index ∧ index < (blocks.length : Int))) :
    revise_section now s sect index directive = (s, .error .indexOutsideRange) := by
  have hb : (decide (0 ≤ index) && decide (index < (blocks.length : Int))) = false := by
    rcases Decidable.not_and_iff_or_not.mp hoob with h | h <;> simp [h]
  simp only [revise_section, hout, hsb, hb]
  rfl

/-- Evaluation of `revise_section` on the success path. -/
lemma revise_section_success (now : Nat) (s : ChatbotState) (out : GenerationOutput)
    (sect : Str) (i : Nat) (directive : Str) (blocks : List ContentBlock)
    (hout : s.current_output = some out) (hsb : sectionBlocksOf out sect = some blocks)
    (hlt : i < blocks.length) :
    revise_section now s sect (i : Int) directive =
      ({ s with
          current_output := some (setSection out sect
            (blocks.set i { blocks.getD i default with
              text := applyDirective (blocks.getD i default).text directive })),
          conversation := s.conversation ++
            [⟨str "user", directive, none, none⟩,
             ⟨str "assistant", str "Updated " ++ sect ++ str "[" ++ natToStr i ++ str "]",
              none,
              some ⟨now, directive, sect ++ str "[" ++ natToStr i ++ str "]",
                (blocks.getD i default).text,
                applyDirective (blocks.getD i default).text directive,
                str "Applied directive '" ++ directive ++
                  str "' via rule-based mutation."⟩⟩] },
       .ok ⟨now, directive, sect ++ str "[" ++ natToStr i ++ str "]",
         (blocks.getD i default).text,
         applyDirective (blocks.getD i default).text directive,
         str "Applied directive '" ++ directive ++ str "' via rule-based mutation."⟩) := by
  have hb : (decide (0 ≤ (i : Int)) && decide ((i : Int) < (blocks.length : Int))) = true := by
    simp [hlt]
  simp only [revise_section, hout, hsb, hb, if_true, Int.toNat_natCast]

/-- C7: `revise_section` succeeds exactly when a current output exists, the
section is one of slides / script / notes, and the index is in bounds for
that section's block count; and on every failure the session state — the
output's blocks and the conversation log — is returned unchanged (the
source raises before any mutation or logging). -/
theorem c7_revise_failure (now : Nat) (s : ChatbotState) (sect : Str) (index : Int)
    (directive : Str) :
    ((revise_section now s sect index directive).2.isOk = true ↔
      ∃ out, s.current_output = some out ∧
        ∃ blocks, sectionBlocksOf out sect = some blocks ∧
          0 ≤ index ∧ index < (blocks.length : Int)) ∧
    ((revise_section now s sect index directive).2.isOk = false →
      (revise_section now s sect index directive).1 = s) := by
  rcases hco : s.current_output with _ | out
  · rw [revise_section_none now s sect index directive hco]
    refine ⟨?_, fun _ => rfl⟩
    constructor
    · intro h
      cases h
    · rintro ⟨out, hout, -⟩
      exact Option.noConfusion hout
  · rcases hsb : sectionBlocksOf out sect with _ | blocks
    · rw [revise_section_badsect now s out sect index directive hco hsb]
      refine ⟨?_, fun _ => rfl⟩
      constructor
      · intro h
        cases h
      · rintro ⟨out2, hout2, blocks2, hsb2, -⟩
        obtain rfl : out = out2 := Option.some.inj hout2
        rw [hsb] at hsb2
        exact Option.noConfusion hsb2
    · by_cases hbound : 0 ≤ index ∧ index < (blocks.length : Int)
      · obtain ⟨i, rfl⟩ : ∃ i : Nat, index = (i : Int) :=
          ⟨index.toNat, (Int.toNat_of_nonneg hbound.1).symm⟩
        have hlt : i < blocks.length := by exact_mod_cast hbound.2
        rw [revise_section_success now s out sect i directive blocks hco hsb hlt]
        refine ⟨?_, ?_⟩
        · exact ⟨fun _ => ⟨out, rfl, blocks, hsb, hbound⟩, fun _ => rfl⟩
        · intro habs
          cases habs
      · rw [revise_section_oob now s out sect index directive blocks hco hsb hbound]
        refine ⟨?_, fun _ => rfl⟩
        constructor
        · intro h
          cases h
        · rintro ⟨out2, hout2, blocks2, hsb2, hb2⟩
          obtain rfl : out = out2 := Option.some.inj hout2
          rw [hsb] at hsb2
          obtain rfl : blocks = blocks2 := Option.some.inj hsb2
          exact absurd hb2 hbound

/-- A concrete session with no generated output yet. -/
def c7EmptyState : ChatbotState := ⟨str "sid7", [], none, none, none⟩

/-- Witness for C7: at a session without output, revision fails and the
state is unchanged. -/
theorem c7_revise_failure_witness :
    ((revise_section 0 c7EmptyState (str "slides") 0 (str "shorter")).2.isOk = true ↔
      ∃ out, c7EmptyState.current_output = some out ∧
        ∃ blocks, sectionBlocksOf out (str "slides") = some blocks ∧
          (0 : Int) ≤ 0 ∧ (0 : Int) < (blocks.length : Int)) ∧
    ((revise_section 0 c7EmptyState (str "slides") 0 (str "shorter")).2.isOk = false →
      (revise_section 0 c7EmptyState (str "slides") 0 (str "shorter")).1 = c7EmptyState) :=
  c7_revise_failure 0 c7EmptyState (str "slides") 0 (str "shorter")

/-- A directive matching none of the three fixed patterns leaves the text
unchanged. -/
lemma applyDirective_no_match (text directive : Str)
    (h1 : containsSub (str "less technical") (pyLower directive) = false)
    (h2 : containsSub (str "more visual") (pyLower directive) = false)
    (h3 : containsSub (str "shorter") (pyLower directive) = false) :
    applyDirective text directive = text := by
  simp [applyDirective, h1, h2, h3]

/-- Writing a section's own blocks back into the output is a no-op. -/
lemma setSection_self (out : GenerationOutput) (sect : Str) (blocks : List ContentBlock)
    (hsb : sectionBlocksOf out sect = some blocks) : setSection out sect blocks = out := by
  unfold sectionBlocksOf at hsb
  unfold setSection
  by_cases h1 : sect = str "slides"
  · rw [if_pos h1] at hsb
    rw [if_pos h1]
    obtain rfl := Option.some.inj hsb
    rfl
  · rw [if_neg h1] at hsb
    rw [if_neg h1]
    by_cases h2 : sect = str "script"
    · rw [if_pos h2] at hsb
      rw [if_pos h2]
      obtain rfl := Option.some.inj hsb
      rfl
    · rw [if_neg h2] at hsb
      rw [if_neg h2]
      by_cases h3 : sect = str "notes"
      · rw [if_pos h3] at hsb
        obtain rfl := Option.some.inj hsb
        rfl
      · rw [if_neg h3] at hsb
        exact Option.noConfusion hsb

/-- C10: revising an in-bounds block with a directive that matches none of
the three fixed patterns returns a `ChangeRecord` whose `after` equals its
`before`, leaves the current output (and the target block's text)
unchanged, and still appends exactly one user turn and one assistant turn
carrying that record to the conversation log. -/
theorem c10_unmatched_directive (now : Nat) (s : ChatbotState) (out : GenerationOutput)
    (sect : Str) (directive : Str) (blocks : List ContentBlock) (i : Nat)
    (hout : s.current_output = some out) (hsb : sectionBlocksOf out sect = some blocks)
    (hi : i < blocks.length)
    (h1 : containsSub (str "less technical") (pyLower directive) = false)
    (h2 : containsSub (str "more visual") (pyLower directive) = false)
    (h3 : containsSub (str "shorter") (pyLower directive) = false) :
    ∃ c : ChangeRecord,
      revise_section now s sect (i : Int) directive =
        ({ s with conversation := s.conversation ++
            [⟨str "user", directive, none, none⟩,
             ⟨str "assistant", str "Updated " ++ sect ++ str "[" ++ natToStr i ++ str "]",
              none, some c⟩] },
         .ok c) ∧
      c.after = c.before ∧ c.before = (blocks.getD i default).text := by
  have happ : applyDirective (blocks.getD i default).text directive =
      (blocks.getD i default).text := applyDirective_no_match _ _ h1 h2 h3
  refine ⟨⟨now, directive, sect ++ str "[" ++ natToStr i ++ str "]",
    (blocks.getD i default).text, (blocks.getD i default).text,
    str "Applied directive '" ++ directive ++ str "' via rule-based mutation."⟩,
    ?_, rfl, rfl⟩
  rw [revise_section_success now s out sect i directive blocks hout hsb hi, happ]
  have hset : blocks.set i { blocks.getD i default with
      text := (blocks.getD i default).text } = blocks := by
    have heta : { blocks.getD i default with text := (blocks.getD i default).text } =
        blocks.getD i default := rfl
    rw [heta, set_getD_self _ _ _ hi]
  rw [hset, setSection_self out sect blocks hsb]
  obtain ⟨sid, conv, retr, sp, co⟩ := s
  simp only at hout
  subst hout
  rfl

/-- A concrete session with a one-slide output for the C10 witness. -/
def c10State : ChatbotState :=
  ⟨str "sid10", [], none, none,
   some ⟨[⟨str "the slide", [⟨str "chunk_0", str "1", 1⟩]⟩], [], [], [], [], []⟩⟩

/-- Witness for C10 at the directive `"rearrange"`, which matches no
pattern. -/
theorem c10_unmatched_directive_witness :
    ∃ c : ChangeRecord,
      revise_section 7 c10State (str "slides") ((0 : Nat) : Int) (str "rearrange") =
        ({ c10State with conversation := c10State.conversation ++
            [⟨str "user", str "rearrange", none, none⟩,
             ⟨str "assistant",
              str "Updated " ++ str "slides" ++ str "[" ++ natToStr 0 ++ str "]",
              none, some c⟩] },
         .ok c) ∧
      c.after = c.before ∧
      c.before = (([⟨str "the slide", [⟨str "chunk_0", str "1", (1 : ℚ)⟩]⟩] :
        List ContentBlock).getD 0 default).text :=
  c10_unmatched_directive 7 c10State
    ⟨[⟨str "the slide", [⟨str "chunk_0", str "1", 1⟩]⟩], [], [], [], [], []⟩
    (str "slides") (str "rearrange")
    [⟨str "the slide", [⟨str "chunk_0", str "1", 1⟩]⟩] 0
    rfl rfl (by decide) (by decide) (by decide) (by decide)

/-- From a failed containment test, neither a head-prefix match nor a
containment in the tail is possible. -/
lemma containsSub_cons_false {pat : Str} {x : Char} {xs : Str}
    (h : containsSub pat (x :: xs) = false) :
    pat.isPrefixOf (x :: xs) = false ∧ containsSub pat xs = false := by
  unfold containsSub at h
  exact Bool.or_eq_false_iff.mp h

/-- A case-insensitive replace-all with no (case-insensitive) occurrence of
the pattern is the identity. -/
lemma replaceAllCI_no_occurrence (t pat repl : Str)
    (h : containsSub pat (pyLower t) = false) : replaceAllCI t pat repl = t := by
  induction t with
  | nil => rfl
  | cons c rest ih =>
    have hc : pyLower (c :: rest) = Char.toLower c :: pyLower rest := rfl
    rw [hc] at h
    obtain ⟨hpre, htail⟩ := containsSub_cons_false h
    show raciGo pat repl (c :: rest) 0 = c :: rest
    unfold raciGo
    rw [hc, hpre]
    simp only [Bool.false_and, Bool.false_eq_true, if_false]
    exact congrArg (c :: ·) (ih htail)

/-- C8 (amended): the safety filter leaves a sentence with no
(case-insensitive) occurrence of any blocked or jargon term unchanged;
occurrences of a blocked term are replaced with the redaction marker only
in the exact lowercase spelling of the blocklist (detection is
case-insensitive over the whole sentence, replacement is case-sensitive,
so `"Kill"` survives); jargon terms are rewritten case-insensitively to
the gloss followed by `(formerly "<term>")` with the map's spelling of the
term. -/
theorem c8_amended_safety :
    (∀ t : Str,
      (∀ term ∈ BLOCKED_TERMS, containsSub term (pyLower t) = false) →
      (∀ js ∈ JARGON_MAP, containsSub js.1 (pyLower t) = false) →
      enforce_safety t = t) ∧
    enforce_safety (str "they kill time.") = str "they [removed] time." ∧
    enforce_safety (str "Kill") = str "Kill" ∧
    enforce_safety (str "hate and Hate") = str "[removed] and Hate" ∧
    enforce_safety (str "Anthropogenic change.") =
      str "human-caused (formerly \"anthropogenic\") change." := by
  refine ⟨?_, by decide, by decide, by decide, by decide⟩
  intro t hblock hjargon
  unfold enforce_safety
  simp only [BLOCKED_TERMS, JARGON_MAP, List.foldl_cons, List.foldl_nil]
  rw [hblock (str "hate") (by decide), hblock (str "kill") (by decide),
    hblock (str "slur") (by decide)]
  simp only [Bool.false_eq_true, if_false]
  rw [replaceAllCI_no_occurrence t _ _ (hjargon (str "non-stationary diffusion",
    str "changing diffusion patterns") (by decide))]
  rw [replaceAllCI_no_occurrence t _ _ (hjargon (str "anthropogenic",
    str "human-caused") (by decide))]

/-- Witness for C8 on a clean sentence. -/
theorem c8_amended_safety_witness :
    (∀ term ∈ BLOCKED_TERMS, containsSub term (pyLower (str "Clean text.")) = false) ∧
    enforce_safety (str "Clean text.") = str "Clean text." :=
  ⟨by decide, c8_amended_safety.1 (str "Clean text.") (by decide) (by decide)⟩

/-- C8 counterexample: the sentence `"Kill the process."` contains the
blocked term `"kill"` in non-lowercase form; the claim requires it to be
replaced by the redaction marker regardless of case, but the filter
returns the sentence unchanged (detection lowers the text, replacement
does not). -/
theorem c8_counterexample :
    enforce_safety (str "Kill the process.") = str "Kill the process." ∧
    str "Kill the process." ≠ str "[removed] the process." := by
  exact ⟨by decide, by decide⟩

/-- Every word produced by the word splitter is non-empty and whitespace
free (invariant: the accumulated current word is whitespace free). -/
lemma swGo_words (s : Str) : ∀ cur : Str, (∀ c ∈ cur, isSpaceChar c = false) →
    ∀ w ∈ swGo s cur, w ≠ [] ∧ ∀ c ∈ w, isSpaceChar c = false := by
  induction s with
  | nil =>
    intro cur hcur w hw
    unfold swGo at hw
    by_cases hc : cur = []
    · simp [hc] at hw
    · rw [if_neg hc] at hw
      simp only [List.mem_singleton] at hw
      subst hw
      refine ⟨by simpa using hc, ?_⟩
      intro c hcmem
      exact hcur c (List.mem_reverse.mp hcmem)
  | cons x rest ih =>
    intro cur hcur w hw
    unfold swGo at hw
    by_cases hx : isSpaceChar x
    · rw [if_pos hx] at hw
      by_cases hc : cur = []
      · rw [if_pos hc] at hw
        exact ih [] (by simp) w hw
      · rw [if_neg hc] at hw
        rcases List.mem_cons.mp hw with rfl | hw2
        · refine ⟨by simpa using hc, ?_⟩
          intro c hcmem
          exact hcur c (List.mem_reverse.mp hcmem)
        · exact ih [] (by simp) w hw2
    · rw [if_neg hx] at hw
      refine ih (x :: cur) ?_ w hw
      intro c hcmem
      rcases List.mem_cons.mp hcmem with rfl | hcm
      · simpa using hx
      · exact hcur c hcm

/-- Step equation: a non-space character is pushed onto the current word. -/
lemma swGo_cons_nonspace (x : Char) (rest cur : Str) (hx : isSpaceChar x = false) :
    swGo (x :: rest) cur = swGo rest (x :: cur) := by
  conv_lhs => rw [swGo.eq_def]
  simp [hx]

/-- Step equation: a space character closes the current word, if any. -/
lemma swGo_cons_space (x : Char) (rest cur : Str) (hx : isSpaceChar x = true) :
    swGo (x :: rest) cur =
      if cur = [] then swGo rest [] else cur.reverse :: swGo rest [] := by
  conv_lhs => rw [swGo.eq_def]
  simp [hx]

/-- Scanning a whitespace-free word pushes it onto the accumulator. -/
lemma swGo_append_word (w : Str) : ∀ (cur t : Str), (∀ c ∈ w, isSpaceChar c = false) →
    swGo (w ++ t) cur = swGo t (w.reverse ++ cur) := by
  induction w with
  | nil => intro cur t _; simp
  | cons x w' ih =>
    intro cur t hw
    have hx : isSpaceChar x = false := hw x (List.mem_cons_self _ _)
    rw [List.cons_append, swGo_cons_nonspace x _ _ hx,
      ih (x :: cur) t (fun c hc => hw c (List.mem_cons_of_mem _ hc))]
    simp

/-- Splitting the space-join of a list of non-empty, whitespace-free words
recovers exactly that list. -/
lemma splitWs_joinSpace (ws : List Str)
    (h : ∀ w ∈ ws, w ≠ [] ∧ ∀ c ∈ w, isSpaceChar c = false) :
    splitWs (joinSpace ws) = ws := by
  induction ws with
  | nil => rfl
  | cons w ws' ih =>
    obtain ⟨hwne, hwf⟩ := h w (List.mem_cons_self _ _)
    cases ws' with
    | nil =>
      show splitWs (joinSpace [w]) = [w]
      unfold splitWs
      show swGo w [] = [w]
      have hstep := swGo_append_word w [] [] hwf
      rw [List.append_nil] at hstep
      rw [hstep]
      unfold swGo
      rw [if_neg (by simpa using hwne)]
      simp
    | cons w2 ws'' =>
      show splitWs (w ++ ' ' :: joinSpace (w2 :: ws'')) = w :: w2 :: ws''
      unfold splitWs
      rw [swGo_append_word w [] (' ' :: joinSpace (w2 :: ws'')) hwf, List.append_nil,
        swGo_cons_space ' ' _ _ (by decide), if_neg (by simpa using hwne),
        List.reverse_reverse]
      have hih := ih (fun x hx => h x (List.mem_cons_of_mem _ hx))
      unfold splitWs at hih
      rw [hih]

/-- Appending to the final word commutes with the space-join. -/
lemma joinSpace_append_last (ws : List Str) (w X : Str) :
    joinSpace (ws ++ [w ++ X]) = joinSpace (ws ++ [w]) ++ X := by
  induction ws with
  | nil => rfl
  | cons a ws' ih =>
    cases ws' with
    | nil => simp [joinSpace]
    | cons b ws'' =>
      show joinSpace (a :: ((b :: ws'') ++ [w ++ X])) =
        joinSpace (a :: ((b :: ws'') ++ [w])) ++ X
      have h1 : joinSpace (a :: ((b :: ws'') ++ [w ++ X])) =
          a ++ ' ' :: joinSpace ((b :: ws'') ++ [w ++ X]) := rfl
      have h2 : joinSpace (a :: ((b :: ws'') ++ [w])) =
          a ++ ' ' :: joinSpace ((b :: ws'') ++ [w]) := rfl
      rw [h1, h2, ih]
      simp

/-- C6 (amended): a directive containing `"shorter"` (and no other pattern)
rewrites the text to the first `max(5, words/2)` words joined by spaces
with `"..."` appended; the resulting word count is
`min(words, max(5, words/2))`, so repeated application strictly decreases
the word count while it exceeds 5 and is a no-op in word count at or below
5 words — but each application appends a further `"..."` to the text, so at
the floor the text still grows (see the counterexample). -/
theorem c6_amended_shorter (text directive : Str)
    (hsh : containsSub (str "shorter") (pyLower directive) = true)
    (hlt : containsSub (str "less technical") (pyLower directive) = false)
    (hmv : containsSub (str "more visual") (pyLower directive) = false)
    (hne : splitWs text ≠ []) :
    applyDirective text directive =
      joinSpace ((splitWs text).take (max 5 ((splitWs text).length / 2))) ++ str "..." ∧
    (splitWs (applyDirective text directive)).length =
      min (max 5 ((splitWs text).length / 2)) (splitWs text).length ∧
    (6 ≤ (splitWs text).length →
      (splitWs (applyDirective text directive)).length < (splitWs text).length) ∧
    ((splitWs text).length ≤ 5 →
      (splitWs (applyDirective text directive)).length = (splitWs text).length) := by
  have heq : applyDirective text directive =
      joinSpace ((splitWs text).take (max 5 ((splitWs text).length / 2))) ++ str "..." := by
    simp [applyDirective, hsh, hlt, hmv]
  have hwords : ∀ w ∈ splitWs text, w ≠ [] ∧ ∀ c ∈ w, isSpaceChar c = false :=
    swGo_words text [] (fun c hc => absurd hc (List.not_mem_nil c))
  set ws := splitWs text with hws
  set m := max 5 (ws.length / 2) with hm
  set l := ws.take m with hldef
  have hlenl : l.length = min m ws.length := List.length_take m ws
  have hwspos : 0 < ws.length := List.length_pos.mpr hne
  have hl : l ≠ [] := by
    apply List.ne_nil_of_length_pos
    rw [hlenl]
    omega
  have hlast_mem : l.getLast hl ∈ ws := List.take_subset m ws (List.getLast_mem hl)
  have hkey : joinSpace l ++ str "..." =
      joinSpace (l.dropLast ++ [l.getLast hl ++ str "..."]) := by
    conv_lhs => rw [← List.dropLast_append_getLast hl]
    rw [joinSpace_append_last]
  have hsplit : splitWs (joinSpace (l.dropLast ++ [l.getLast hl ++ str "..."])) =
      l.dropLast ++ [l.getLast hl ++ str "..."] := by
    apply splitWs_joinSpace
    intro w hw
    rcases List.mem_append.mp hw with hw1 | hw2
    · exact hwords w (List.take_subset m ws ((List.dropLast_sublist l).subset hw1))
    · simp only [List.mem_singleton] at hw2
      subst hw2
      constructor
      · rw [Ne, List.append_eq_nil]
        rintro ⟨-, h⟩
        exact absurd h (by decide)
      · intro c hc
        rcases List.mem_append.mp hc with hc1 | hc2
        · exact (hwords _ hlast_mem).2 c hc1
        · have hdots : ∀ c ∈ str "...", isSpaceChar c = false := by decide
          exact hdots c hc2
  have hcount : (splitWs (applyDirective text directive)).length = min m ws.length := by
    rw [heq, hkey, hsplit]
    have : l.dropLast.length = l.length - 1 := List.length_dropLast l
    simp only [List.length_append, List.length_singleton, this]
    have : 0 < l.length := List.length_pos.mpr hl
    omega
  refine ⟨heq, hcount, ?_, ?_⟩ <;> rw [hcount] <;> omega

/-- Witness for C6 at an eight-word text. -/
theorem c6_amended_shorter_witness :
    containsSub (str "shorter") (pyLower (str "shorter")) = true ∧
    splitWs (str "a b c d e f g h") ≠ [] ∧
    (applyDirective (str "a b c d e f g h") (str "shorter") =
      joinSpace ((splitWs (str "a b c d e f g h")).take
        (max 5 ((splitWs (str "a b c d e f g h")).length / 2))) ++ str "..." ∧
    (splitWs (applyDirective (str "a b c d e f g h") (str "shorter"))).length =
      min (max 5 ((splitWs (str "a b c d e f g h")).length / 2))
        (splitWs (str "a b c d e f g h")).length ∧
    (6 ≤ (splitWs (str "a b c d e f g h")).length →
      (splitWs (applyDirective (str "a b c d e f g h") (str "shorter"))).length <
        (splitWs (str "a b c d e f g h")).length) ∧
    ((splitWs (str "a b c d e f g h")).length ≤ 5 →
      (splitWs (applyDirective (str "a b c d e f g h") (str "shorter"))).length =
        (splitWs (str "a b c d e f g h")).length)) :=
  ⟨by decide, by decide,
   c6_amended_shorter (str "a b c d e f g h") (str "shorter") (by decide) (by decide)
     (by decide) (by decide)⟩

/-- C6 counterexample: at the five-word floor, a further application of
`"shorter"` is not a textual no-op — it appends another ellipsis beyond
the floor text plus ellipsis (word count stays 5, the string grows). -/
theorem c6_counterexample :
    applyDirective (str "a b c d e") (str "shorter") = str "a b c d e..." ∧
    applyDirective (applyDirective (str "a b c d e") (str "shorter")) (str "shorter") =
      str "a b c d e......" ∧
    applyDirective (applyDirective (str "a b c d e") (str "shorter")) (str "shorter") ≠
      applyDirective (str "a b c d e") (str "shorter") := by
  exact ⟨by decide, by decide, by decide⟩

instance (scores : List ℚ) : IsTotal Nat (asLe scores) :=
  ⟨by
    intro i j
    rcases lt_trichotomy (scores.getD i 0) (scores.getD j 0) with h | h | h
    · exact Or.inl (Or.inl h)
    · rcases Nat.le_total i j with hij | hij
      · exact Or.inl (Or.inr ⟨h, hij⟩)
      · exact Or.inr (Or.inr ⟨h.symm, hij⟩)
    · exact Or.inr (Or.inl h)⟩

instance (scores : List ℚ) : IsTrans Nat (asLe scores) :=
  ⟨by
    intro i j k hij hjk
    rcases hij with h1 | ⟨h1, hij⟩ <;> rcases hjk with h2 | ⟨h2, hjk⟩
    · exact Or.inl (h1.trans h2)
    · exact Or.inl (h2 ▸ h1)
    · exact Or.inl (h1 ▸ h2)
    · exact Or.inr ⟨h1.trans h2, hij.trans hjk⟩⟩

/-- The argsort of a score list is a permutation of `0 .. n-1`. -/
lemma argsortQ_perm (scores : List ℚ) :
    (argsortQ scores).Perm (List.range scores.length) :=
  List.perm_insertionSort _ _

/-- The argsort has one entry per score. -/
lemma argsortQ_length (scores : List ℚ) : (argsortQ scores).length = scores.length := by
  rw [(argsortQ_perm scores).length_eq, List.length_range]

/-- The argsort is sorted for the (score, index) key and has no duplicate
indices. -/
lemma argsortQ_sorted_nodup (scores : List ℚ) :
    (argsortQ scores).Pairwise (asLe scores) ∧ (argsortQ scores).Nodup :=
  ⟨List.sorted_insertionSort _ _,
   (argsortQ_perm scores).symm.nodup (List.nodup_range _)⟩

/-- The search order is strictly descending in the (score, index) key:
scores non-increasing, and equal scores ordered by descending index
(later-inserted chunks first). -/
lemma searchOrder_pairwise (scores : List ℚ) (k : Nat) :
    (searchOrder scores k).Pairwise (fun i j =>
      scores.getD j 0 < scores.getD i 0 ∨
        (scores.getD j 0 = scores.getD i 0 ∧ j < i)) := by
  obtain ⟨hsorted, hnodup⟩ := argsortQ_sorted_nodup scores
  have hcomb : (argsortQ scores).Pairwise (fun i j => asLe scores i j ∧ i ≠ j) :=
    hsorted.and hnodup
  have hslice : (pySliceLast (argsortQ scores) k).Pairwise
      (fun i j => asLe scores i j ∧ i ≠ j) := by
    unfold pySliceLast
    split
    · exact hcomb
    · exact List.Pairwise.sublist (List.drop_sublist _ _) hcomb
  have hrev := List.pairwise_reverse.mpr hslice
  refine hrev.imp ?_
  rintro i j ⟨hle, hne⟩
  rcases hle with h | ⟨h, hij⟩
  · exact Or.inl h
  · exact Or.inr ⟨h, lt_of_le_of_ne hij hne⟩

/-- Length of the search order: everything for `k = 0`, else `min k n`. -/
lemma searchOrder_length (scores : List ℚ) (k : Nat) :
    (searchOrder scores k).length =
      if k = 0 then scores.length else min k scores.length := by
  unfold searchOrder pySliceLast
  split
  · simp [argsortQ_length]
  · simp only [List.length_reverse, List.length_drop, argsortQ_length]
    omega

/-- C1 (amended): `similarity_search` returns `min(k, size)` results for
`k ≥ 1` but ALL `size` results for `k = 0` (Python's `[-0:]` slice is the
whole array), ranked by non-increasing cosine score with ties between
equal scores broken by REVERSED insertion order (later-inserted chunks
first, the `[::-1]` of the ascending stable argsort); the empty index
yields the empty sequence for every `k`. -/
theorem c1_amended_search (s : VectorStore) (q : List ℚ) (k : Nat) :
    (s.similarity_search q k).length =
      (if s.embeddings = [] then 0
       else if k = 0 then s.embeddings.length else min k s.embeddings.length) ∧
    (s.similarity_search q k).Pairwise (fun a b => b.score ≤ a.score) ∧
    (searchOrder (s.scoresOf q) k).Pairwise (fun i j =>
      (s.scoresOf q).getD j 0 < (s.scoresOf q).getD i 0 ∨
        ((s.scoresOf q).getD j 0 = (s.scoresOf q).getD i 0 ∧ j < i)) := by
  refine ⟨?_, ?_, searchOrder_pairwise (s.scoresOf q) k⟩
  · unfold VectorStore.similarity_search
    split
    · simp [*]
    · rw [List.length_map, searchOrder_length]
      have hlen : (s.scoresOf q).length = s.embeddings.length := List.length_map _ _
      rw [hlen]
  · unfold VectorStore.similarity_search
    split
    · exact List.Pairwise.nil
    · rw [List.pairwise_map]
      refine (searchOrder_pairwise (s.scoresOf q) k).imp ?_
      rintro i j (h | ⟨h, -⟩)
      · exact le_of_lt h
      · exact le_of_eq h

/-- C1 counterexample: on a two-chunk index whose chunks have identical
embeddings, `similarity_search` with `k = 0` returns 2 results instead of
the claimed `min(0, 2) = 0` (Python's `[-0:]` slice is the whole array),
and with `k = 2` the two equal-score chunks come back LATER-inserted first
(`chunk_1` before `chunk_0`), not in original insertion order. -/
theorem c1_counterexample :
    (tieStore.similarity_search [1] 0).length = 2 ∧
    (tieStore.similarity_search [1] 0).length ≠ min 0 tieStore.embeddings.length ∧
    (tieStore.similarity_search [1] 2).map (fun r => r.chunk.chunk_id) =
      [str "chunk_1", str "chunk_0"] := by
  have h : argsortQ (tieStore.scoresOf [1]) = [0, 1] := argsortQ_pair_eq _ rfl rfl
  refine ⟨?_, ?_, ?_⟩
  · simp only [VectorStore.similarity_search, searchOrder, pySliceLast, h]
    rw [if_neg (by simp [tieStore])]
    rfl
  · simp only [VectorStore.similarity_search, searchOrder, pySliceLast, h]
    rw [if_neg (by simp [tieStore])]
    decide
  · simp only [VectorStore.similarity_search, searchOrder, pySliceLast, h]
    rw [if_neg (by simp [tieStore])]
    rfl

/-- Value of a little-endian decimal digit list. -/
def valOfDigits : List Nat → Nat
  | [] => 0
  | d :: ds => d + 10 * valOfDigits ds

/-- With enough fuel, the digit expansion evaluates back to its input. -/
lemma valOfDigits_digitsGo : ∀ f n, n ≤ f → valOfDigits (digitsGo f n) = n := by
  intro f
  induction f with
  | zero =>
    intro n hn
    interval_cases n
    rfl
  | succ f ih =>
    intro n hn
    cases n with
    | zero => rfl
    | succ m =>
      show valOfDigits ((m + 1) % 10 :: digitsGo f ((m + 1) / 10)) = m + 1
      unfold valOfDigits
      rw [ih ((m + 1) / 10) (by omega)]
      omega

/-- Every emitted digit is below 10. -/
lemma digitsGo_lt_ten : ∀ f n d, d ∈ digitsGo f n → d < 10 := by
  intro f
  induction f with
  | zero =>
    intro n d hd
    cases n <;> simp [digitsGo] at hd
  | succ f ih =>
    intro n d hd
    cases n with
    | zero => simp [digitsGo] at hd
    | succ m =>
      rcases List.mem_cons.mp hd with rfl | hd2
      · omega
      · exact ih _ d hd2

/-- The decimal digit characters are distinct for digits below 10. -/
lemma digitChar_inj_lt : ∀ d < 10, ∀ e < 10, Nat.digitChar d = Nat.digitChar e → d = e := by
  decide

/-- Mapping `digitChar` over bounded digit lists is injective. -/
lemma map_digitChar_inj : ∀ ds es : List Nat, (∀ d ∈ ds, d < 10) → (∀ e ∈ es, e < 10) →
    ds.map Nat.digitChar = es.map Nat.digitChar → ds = es := by
  intro ds
  induction ds with
  | nil =>
    intro es _ _ h
    cases es with
    | nil => rfl
    | cons e es' => simp at h
  | cons d ds' ih =>
    intro es hds hes h
    cases es with
    | nil => simp at h
    | cons e es' =>
      simp only [List.map_cons, List.cons.injEq] at h
      have hd := hds d (List.mem_cons_self _ _)
      have he := hes e (List.mem_cons_self _ _)
      have : d = e := digitChar_inj_lt d hd e he h.1
      subst this
      rw [ih es' (fun x hx => hds x (List.mem_cons_of_mem _ hx))
        (fun x hx => hes x (List.mem_cons_of_mem _ hx)) h.2]

/-- A positive number's digit string is not `"0"`. -/
lemma natToStr_pos_ne_zeroStr (n : Nat) (hn : n ≠ 0) : natToStr n ≠ ['0'] := by
  intro h
  unfold natToStr at h
  rw [if_neg hn] at h
  have h2 : (digitsGo n n).map Nat.digitChar = ['0'] := by
    have := congrArg List.reverse h
    simpa using this
  have h3 : digitsGo n n = [0] := by
    apply map_digitChar_inj _ _ (fun d hd => digitsGo_lt_ten n n d hd) (by simp)
    simpa using h2
  have h4 := valOfDigits_digitsGo n n (le_refl n)
  rw [h3] at h4
  simp [valOfDigits] at h4
  omega

/-- Python's decimal rendering of a natural number is injective. -/
lemma natToStr_inj : Function.Injective natToStr := by
  intro m n h
  by_cases hm : m = 0 <;> by_cases hn : n = 0
  · omega
  · subst hm
    exact absurd h.symm (natToStr_pos_ne_zeroStr n hn)
  · subst hn
    exact absurd h (natToStr_pos_ne_zeroStr m hm)
  · unfold natToStr at h
    rw [if_neg hm, if_neg hn] at h
    have h2 : (digitsGo m m).map Nat.digitChar = (digitsGo n n).map Nat.digitChar := by
      have := congrArg List.reverse h
      simpa using this
    have h3 : digitsGo m m = digitsGo n n :=
      map_digitChar_inj _ _ (fun d hd => digitsGo_lt_ten m m d hd)
        (fun d hd => digitsGo_lt_ten n n d hd) h2
    have h4 := valOfDigits_digitsGo m m (le_refl m)
    have h5 := valOfDigits_digitsGo n n (le_refl n)
    rw [h3] at h4
    omega

/-- The chunk-id rendering `"chunk_<i>"` is injective. -/
lemma chunkIdStr_inj : Function.Injective (fun i => str "chunk_" ++ natToStr i) := by
  intro m n h
  exact natToStr_inj (List.append_cancel_left h)

/-- Step equation of the chunk loop on the empty sentence list. -/
lemma chunkTextAux_nil (cfg : ChunkConfig) (pm : PageMap) (window : List Str)
    (ptr cnt : Nat) :
    chunkTextAux cfg pm [] window ptr cnt =
      if window = [] then []
      else [⟨str "chunk_" ++ natToStr cnt, joinSpace window, inferPage ptr pm, none, []⟩] :=
  rfl

/-- Step equation of the chunk loop on one more sentence. -/
lemma chunkTextAux_cons (cfg : ChunkConfig) (pm : PageMap) (s : Str) (rest : List Str)
    (window : List Str) (ptr cnt : Nat) :
    chunkTextAux cfg pm (s :: rest) window ptr cnt =
      if cfg.chunk_size ≤ (joinSpace (window ++ [s])).length then
        ⟨str "chunk_" ++ natToStr cnt, joinSpace (window ++ [s]),
          inferPage (ptr + s.length) pm, none, []⟩ ::
          chunkTextAux cfg pm rest
            (if 0 < cfg.overlap then
              [joinSpace ((splitWs (joinSpace (window ++ [s]))).drop
                ((splitWs (joinSpace (window ++ [s]))).length - cfg.overlap))]
            else [])
            (ptr + s.length) (cnt + 1)
      else chunkTextAux cfg pm rest (window ++ [s]) (ptr + s.length) cnt := by
  conv_lhs => rw [chunkTextAux.eq_def]

/-- The ids emitted by the chunk loop are consecutive `"chunk_<i>"` strings
starting at the running count. -/
lemma chunkTextAux_ids (cfg : ChunkConfig) (pm : PageMap) :
    ∀ (ss window : List Str) (ptr cnt : Nat),
    (chunkTextAux cfg pm ss window ptr cnt).map (fun c => c.chunk_id) =
      (List.range' cnt (chunkTextAux cfg pm ss window ptr cnt).length).map
        (fun i => str "chunk_" ++ natToStr i) := by
  intro ss
  induction ss with
  | nil =>
    intro window ptr cnt
    rw [chunkTextAux_nil]
    split
    · rfl
    · rfl
  | cons s rest ih =>
    intro window ptr cnt
    rw [chunkTextAux_cons]
    split
    · simp only [List.map_cons, List.length_cons, List.range'_succ]
      rw [ih]
    · exact ih _ _ _

/-- Step equation of the sentence scanner on the empty string. -/
lemma ssAux_nil (mode : Bool) (cur : Str) : ssAux mode [] cur = [cur.reverse] := rfl

/-- Step equation of the sentence scanner on one more character. -/
lemma ssAux_cons (mode : Bool) (c : Char) (rest cur : Str) :
    ssAux mode (c :: rest) cur =
      if (mode && isSpaceChar c) = true then ssAux true rest cur
      else if (isSentencePunct c && headIsSpace rest) = true then
        (c :: cur).reverse :: ssAux true rest []
      else ssAux false rest (c :: cur) := by
  conv_lhs => rw [ssAux.eq_def]

/-- Stripping can only shorten a string. -/
lemma trimStr_length_le (s : Str) : (trimStr s).length ≤ s.length := by
  unfold trimStr
  have h1 : (s.dropWhile isSpaceChar).length ≤ s.length :=
    (List.dropWhile_sublist _).length_le
  have h2 : ((s.dropWhile isSpaceChar).reverse.dropWhile isSpaceChar).length ≤
      (s.dropWhile isSpaceChar).reverse.length :=
    (List.dropWhile_sublist _).length_le
  simp only [List.length_reverse] at h2 ⊢
  omega

/-- A string that strips to nothing is all whitespace. -/
lemma trimStr_all_space (s : Str) (h : trimStr s = []) :
    ∀ c ∈ s, isSpaceChar c = true := by
  unfold trimStr at h
  rw [List.reverse_eq_nil_iff, List.dropWhile_eq_nil_iff] at h
  intro c hc
  have hsplit := List.takeWhile_append_dropWhile isSpaceChar s
  rw [← hsplit] at hc
  rcases List.mem_append.mp hc with h1 | h2
  · exact List.mem_takeWhile_imp h1
  · exact h c (List.mem_reverse.mpr h2)

/-- A non-empty stripped string contains a non-whitespace character. -/
lemma exists_nonspace_of_trim_ne (s : Str) (h : trimStr s ≠ []) :
    ∃ c ∈ trimStr s, isSpaceChar c = false := by
  unfold trimStr at h ⊢
  rw [Ne, List.reverse_eq_nil_iff] at h
  refine ⟨((s.dropWhile isSpaceChar).reverse.dropWhile isSpaceChar).head h, ?_, ?_⟩
  · exact List.mem_reverse.mpr (List.head_mem h)
  · have := List.head_dropWhile_not isSpaceChar (s.dropWhile isSpaceChar).reverse h
    simpa using this

/-- Joining one more piece adds at most the piece plus one separator. -/
lemma joinSpace_cons_length_le (p : Str) (L : List Str) :
    (joinSpace (p :: L)).length ≤ p.length + 1 + (joinSpace L).length := by
  cases L with
  | nil => simp [joinSpace]
  | cons b rest =>
    show (p ++ ' ' :: joinSpace (b :: rest)).length ≤ _
    simp
    omega

/-- The joined length is monotone under appending further pieces. -/
lemma joinSpace_le_append (l1 l2 : List Str) :
    (joinSpace l1).length ≤ (joinSpace (l1 ++ l2)).length := by
  induction l1 with
  | nil => simp [joinSpace]
  | cons a l1' ih =>
    cases l1' with
    | nil =>
      cases l2 with
      | nil => simp
      | cons b rest =>
        show (joinSpace [a]).length ≤ (a ++ ' ' :: joinSpace (b :: rest)).length
        simp [joinSpace]
    | cons b rest =>
      show (a ++ ' ' :: joinSpace (b :: rest)).length ≤
        (a ++ ' ' :: joinSpace ((b :: rest) ++ l2)).length
      simp only [List.length_append, List.length_cons]
      have := ih
      simp only [List.cons_append] at this ⊢
      omega

/-- The stripped, filtered sentence pieces, joined by single spaces, are
no longer than the accumulated sentence plus the remaining input: each
boundary discards at least one whitespace character, paying for the
single-space separator of the join. -/
lemma ssc_length_bound : ∀ (N : Nat) (l : Str), l.length ≤ N → ∀ (mode : Bool) (cur : Str),
    (joinSpace (((ssAux mode l cur).map trimStr).filter (fun s => s ≠ []))).length ≤
      cur.length + l.length := by
  intro N
  induction N with
  | zero =>
    intro l hl mode cur
    have : l = [] := List.eq_nil_of_length_eq_zero (by omega)
    subst this
    rw [ssAux_nil]
    simp only [List.map_cons, List.map_nil]
    by_cases ht : trimStr cur.reverse = []
    · simp [ht, joinSpace]
    · rw [List.filter_cons_of_pos (by simpa using ht), List.filter_nil]
      show (trimStr cur.reverse).length ≤ _
      have := trimStr_length_le cur.reverse
      simp only [List.length_reverse] at this
      omega
  | succ M ih =>
    intro l hl mode cur
    cases l with
    | nil =>
      rw [ssAux_nil]
      simp only [List.map_cons, List.map_nil]
      by_cases ht : trimStr cur.reverse = []
      · simp [ht, joinSpace]
      · rw [List.filter_cons_of_pos (by simpa using ht), List.filter_nil]
        show (trimStr cur.reverse).length ≤ _
        have := trimStr_length_le cur.reverse
        simp only [List.length_reverse] at this
        omega
    | cons c rest =>
      simp only [List.length_cons] at hl
      rw [ssAux_cons]
      by_cases h1 : (mode && isSpaceChar c) = true
      · rw [if_pos h1]
        have := ih rest (by omega) true cur
        simp only [List.length_cons]
        omega
      · rw [if_neg h1]
        by_cases h2 : (isSentencePunct c && headIsSpace rest) = true
        · rw [if_pos h2]
          have hrest : ∃ d rest2, rest = d :: rest2 ∧ isSpaceChar d = true := by
            cases rest with
            | nil => simp [headIsSpace] at h2
            | cons d rest2 =>
              refine ⟨d, rest2, rfl, ?_⟩
              have := (Bool.and_eq_true _ _).mp h2
              simpa [headIsSpace] using this.2
          obtain ⟨d, rest2, rfl, hd⟩ := hrest
          have hskip : ssAux true (d :: rest2) [] = ssAux true rest2 [] := by
            rw [ssAux_cons]
            simp [hd]
          rw [hskip]
          simp only [List.map_cons]
          have hF := ih rest2 (by simp at hl; omega) true []
          by_cases ht : trimStr (c :: cur).reverse = []
          · rw [List.filter_cons_of_neg (by simpa using ht)]
            simp only [List.length_nil, Nat.zero_add] at hF
            simp only [List.length_cons]
            omega
          · rw [List.filter_cons_of_pos (by simpa using ht)]
            have hcons := joinSpace_cons_length_le (trimStr (c :: cur).reverse)
              (((ssAux true rest2 []).map trimStr).filter (fun s => s ≠ []))
            have htl : (trimStr (c :: cur).reverse).length ≤ cur.length + 1 := by
              have := trimStr_length_le (c :: cur).reverse
              simp only [List.length_reverse, List.length_cons] at this
              omega
            simp only [List.length_nil, Nat.zero_add] at hF
            simp only [List.length_cons]
            omega
        · rw [if_neg h2]
          have := ih rest (by omega) false (c :: cur)
          simp only [List.length_cons] at this ⊢
          omega

/-- If the accumulated sentence or the remaining input contains a
non-whitespace character, the filtered sentence pieces are non-empty. -/
lemma ssc_filter_ne : ∀ (N : Nat) (l : Str), l.length ≤ N → ∀ (mode : Bool) (cur : Str),
    (∃ c, (c ∈ cur ∨ c ∈ l) ∧ isSpaceChar c = false) →
    ((ssAux mode l cur).map trimStr).filter (fun s => s ≠ []) ≠ [] := by
  have base : ∀ (mode : Bool) (cur : Str),
      (∃ c, (c ∈ cur ∨ c ∈ ([] : Str)) ∧ isSpaceChar c = false) →
      ((ssAux mode [] cur).map trimStr).filter (fun s => s ≠ []) ≠ [] := by
    intro mode cur ⟨c, hc, hcn⟩
    rcases hc with hc | hc
    · rw [ssAux_nil]
      simp only [List.map_cons, List.map_nil]
      have ht : trimStr cur.reverse ≠ [] := by
        intro habs
        have := trimStr_all_space cur.reverse habs c (List.mem_reverse.mpr hc)
        rw [this] at hcn
        cases hcn
      rw [List.filter_cons_of_pos (by simpa using ht)]
      simp
    · cases hc
  intro N
  induction N with
  | zero =>
    intro l hl mode cur hex
    have : l = [] := List.eq_nil_of_length_eq_zero (by omega)
    subst this
    exact base mode cur hex
  | succ M ih =>
    intro l hl mode cur hex
    cases l with
    | nil => exact base mode cur hex
    | cons c rest =>
      simp only [List.length_cons] at hl
      obtain ⟨w, hw, hwn⟩ := hex
      rw [ssAux_cons]
      by_cases h1 : (mode && isSpaceChar c) = true
      · rw [if_pos h1]
        apply ih rest (by omega) true cur
        refine ⟨w, ?_, hwn⟩
        rcases hw with hw | hw
        · exact Or.inl hw
        · rcases List.mem_cons.mp hw with rfl | hw2
          · exfalso
            have := (Bool.and_eq_true _ _).mp h1
            rw [this.2] at hwn
            cases hwn
          · exact Or.inr hw2
      · rw [if_neg h1]
        by_cases h2 : (isSentencePunct c && headIsSpace rest) = true
        · rw [if_pos h2]
          have hrest : ∃ d rest2, rest = d :: rest2 ∧ isSpaceChar d = true := by
            cases rest with
            | nil => simp [headIsSpace] at h2
            | cons d rest2 =>
              refine ⟨d, rest2, rfl, ?_⟩
              have := (Bool.and_eq_true _ _).mp h2
              simpa [headIsSpace] using this.2
          obtain ⟨d, rest2, rfl, hd⟩ := hrest
          have hskip : ssAux true (d :: rest2) [] = ssAux true rest2 [] := by
            rw [ssAux_cons]
            simp [hd]
          rw [hskip]
          simp only [List.map_cons]
          have hw' : w ∈ c :: cur ∨ w ∈ rest2 := by
            rcases hw with hw | hw
            · exact Or.inl (List.mem_cons_of_mem _ hw)
            · rcases List.mem_cons.mp hw with rfl | hw2
              · exact Or.inl (List.mem_cons_self _ _)
              · rcases List.mem_cons.mp hw2 with rfl | hw3
                · exfalso
                  rw [hd] at hwn
                  cases hwn
                · exact Or.inr hw3
          rcases hw' with hw' | hw'
          · have ht : trimStr (c :: cur).reverse ≠ [] := by
              intro habs
              have := trimStr_all_space (c :: cur).reverse habs w
                (List.mem_reverse.mpr hw')
              rw [this] at hwn
              cases hwn
            rw [List.filter_cons_of_pos (by simpa using ht)]
            simp
          · have hF := ih rest2 (by simp at hl; omega) true []
              ⟨w, Or.inr hw', hwn⟩
            by_cases ht : trimStr (c :: cur).reverse = []
            · rw [List.filter_cons_of_neg (by simpa using ht)]
              exact hF
            · rw [List.filter_cons_of_pos (by simpa using ht)]
              simp
        · rw [if_neg h2]
          apply ih rest (by omega) false (c :: cur)
          refine ⟨w, ?_, hwn⟩
          rcases hw with hw | hw
          · exact Or.inl (List.mem_cons_of_mem _ hw)
          · rcases List.mem_cons.mp hw with rfl | hw2
            · exact Or.inl (List.mem_cons_self _ _)
            · exact Or.inr hw2

/-- If the join of all sentences stays below the chunk size, the loop never
emits inside the body and produces exactly the one trailing chunk. -/
lemma chunkTextAux_single (cfg : ChunkConfig) (pm : PageMap) :
    ∀ (ss window : List Str) (ptr cnt : Nat),
    (joinSpace (window ++ ss)).length < cfg.chunk_size → window ++ ss ≠ [] →
    (chunkTextAux cfg pm ss window ptr cnt).length = 1 := by
  intro ss
  induction ss with
  | nil =>
    intro window ptr cnt _ hne
    rw [List.append_nil] at hne
    rw [chunkTextAux_nil, if_neg hne]
    rfl
  | cons s rest ih =>
    intro window ptr cnt hlen hne
    have hassoc : (window ++ [s]) ++ rest = window ++ (s :: rest) := by simp
    have hstep : (joinSpace (window ++ [s])).length < cfg.chunk_size := by
      have := joinSpace_le_append (window ++ [s]) rest
      rw [hassoc] at this
      omega
    rw [chunkTextAux_cons, if_neg (by omega)]
    apply ih (window ++ [s]) (ptr + s.length) cnt
    · rw [hassoc]
      exact hlen
    · simp

/-- Unfolding of `simple_sentence_split` on input with content. -/
lemma simple_sentence_split_of_ne (text : Str) (h : trimStr text ≠ []) :
    simple_sentence_split text =
      ((ssAux false (trimStr text) []).map trimStr).filter (fun s => s ≠ []) := by
  unfold simple_sentence_split
  rw [if_neg h]

/-- C9 (amended): for every `chunk_size ≥ 1` and overlap, chunking the
empty document yields no chunks; chunking a document that contains at
least one non-whitespace character and whose total length is below
`chunk_size` yields exactly one chunk (a whitespace-only document, though
non-empty, yields no chunks — see the counterexample); and the emitted
chunk ids are exactly `"chunk_<position>"` in emission order, hence unique
and strictly increasing. -/
theorem c9_amended_chunking (pm : PageMap) (cfg : ChunkConfig)
    (hcs : 1 ≤ cfg.chunk_size) :
    chunk_text [] pm cfg = [] ∧
    (∀ text : Str, trimStr text ≠ [] → text.length < cfg.chunk_size →
      (chunk_text text pm cfg).length = 1) ∧
    (∀ text : Str,
      (chunk_text text pm cfg).map (fun c => c.chunk_id) =
        (List.range (chunk_text text pm cfg).length).map
          (fun i => str "chunk_" ++ natToStr i) ∧
      ((chunk_text text pm cfg).map (fun c => c.chunk_id)).Nodup) := by
  refine ⟨rfl, ?_, ?_⟩
  · intro text htrim hlen
    unfold chunk_text
    rw [simple_sentence_split_of_ne text htrim]
    set sents := ((ssAux false (trimStr text) []).map trimStr).filter (fun s => s ≠ [])
      with hsents
    obtain ⟨w, hwmem, hwns⟩ := exists_nonspace_of_trim_ne text htrim
    have hne : sents ≠ [] :=
      ssc_filter_ne (trimStr text).length (trimStr text) (le_refl _) false []
        ⟨w, Or.inr hwmem, hwns⟩
    have hjl : (joinSpace sents).length ≤ (trimStr text).length := by
      have := ssc_length_bound (trimStr text).length (trimStr text) (le_refl _) false []
      simp only [List.length_nil, Nat.zero_add] at this
      exact this
    have htl := trimStr_length_le text
    apply chunkTextAux_single cfg pm sents [] 0 0
    · simp only [List.nil_append]
      omega
    · simpa using hne
  · intro text
    constructor
    · rw [List.range_eq_range']
      exact chunkTextAux_ids cfg pm _ [] 0 0
    · unfold chunk_text
      rw [chunkTextAux_ids cfg pm _ [] 0 0, ← List.range_eq_range']
      exact List.Nodup.map chunkIdStr_inj (List.nodup_range _)

/-- Witness for C9 at the default chunk configuration. -/
theorem c9_amended_chunking_witness :
    1 ≤ (500 : Nat) ∧
    (chunk_text [] [] ⟨500, 120⟩ = [] ∧
    (∀ text : Str, trimStr text ≠ [] → text.length < (500 : Nat) →
      (chunk_text text [] ⟨500, 120⟩).length = 1) ∧
    (∀ text : Str,
      (chunk_text text [] ⟨500, 120⟩).map (fun c => c.chunk_id) =
        (List.range (chunk_text text [] ⟨500, 120⟩).length).map
          (fun i => str "chunk_" ++ natToStr i) ∧
      ((chunk_text text [] ⟨500, 120⟩).map (fun c => c.chunk_id)).Nodup)) :=
  ⟨by decide, c9_amended_chunking [] ⟨500, 120⟩ (by decide)⟩

/-- C9 counterexample: the one-space document is non-empty and shorter than
the chunk size, yet it yields no chunks at all (the sentence splitter
strips it to nothing), not exactly one chunk as claimed. -/
theorem c9_counterexample :
    str " " ≠ [] ∧ (str " ").length < 500 ∧
    chunk_text (str " ") [] ⟨500, 120⟩ = [] := by
  exact ⟨by decide, by decide, by decide⟩
